import Mathlib

/-!
Verification of the samplesheet validator (`bin/check_samplesheet.py`).

Strings are modelled as `List Char`.  Each Python primitive used by the
validator (`str.strip`, `str.strip('"')`, `str.split(",")`, `str.find(" ")`,
`str.replace(" ", "_")`, `str.endswith`) is embedded directly, and the body of
`check_samplesheet` is decomposed into `processLine` (the per-row work of the
main loop), `processLines` (the loop), `outLines` (the write phase) and
`check` / `run` (the whole routine; `run` additionally records the observable
actions, in order, so that statements about warnings and about output-file
writes can be made).
-/

namespace Samplesheet

abbrev Str := List Char

/-- Whitespace characters recognised by Python's `str.strip()` (ASCII part). -/
def isWS (c : Char) : Bool :=
  c = ' ' || c = '\t' || c = '\n' || c = '\r' || c = '\x0b' || c = '\x0c'

/-- `stripEnds p l` removes the maximal run of `p`-characters from both ends:
the common shape of Python's `str.strip()` and `str.strip('"')`. -/
def stripEnds (p : Char → Bool) (l : Str) : Str :=
  ((l.dropWhile p).reverse.dropWhile p).reverse

/-- Python `s.strip()`. -/
def pyStrip (l : Str) : Str := stripEnds isWS l

def isQuote (c : Char) : Bool := c = '"'

/-- Python `s.strip('"')`. -/
def stripQuotes (l : Str) : Str := stripEnds isQuote l

/-- Python `s.split(",")`: always returns at least one part, keeps empties. -/
def splitComma : Str → List Str
  | [] => [[]]
  | c :: cs =>
    if c = ',' then [] :: splitComma cs
    else
      match splitComma cs with
      | [] => [[c]]
      | p :: ps => (c :: p) :: ps

/-- Per-field normalisation of a data row: `x.strip().strip('"')`. -/
def parseField (x : Str) : Str := stripQuotes (pyStrip x)

/-- Header fields: `[x.strip('"') for x in line.strip().split(",")]` — note
that the individual fields are only quote-stripped, not whitespace-stripped. -/
def headerFields (line : Str) : List Str :=
  (splitComma (pyStrip line)).map stripQuotes

def HEADER : List Str :=
  ["species".data, "file".data, "tax1".data, "tax2".data, "mode".data, "uniprot".data]

/-- The header test `header[:len(HEADER)] == HEADER`. -/
abbrev headerOK (line : Str) : Prop := (headerFields line).take 6 = HEADER

/-- Data-row fields: `[x.strip().strip('"') for x in line.strip().split(",")]`. -/
def parseRow (line : Str) : List Str := (splitComma (pyStrip line)).map parseField

/-- `len([x for x in lspl if x])`: the number of non-empty fields. -/
def countPop (l : List Str) : Nat := (l.filter (fun x => decide (x ≠ []))).length

/-- `species.replace(" ", "_")`. -/
def spaceToUnderscore (s : Str) : Str := s.map (fun c => if c = ' ' then '_' else c)

/-- `fasta.endswith(".fasta") or fasta.endswith(".fa")`. -/
def hasFastaExt (f : Str) : Bool :=
  ".fasta".data.isSuffixOf f || ".fa".data.isSuffixOf f

/-- The fatal errors of the validator, carrying the offending raw line. -/
inductive Err where
  | badHeader : Err
  | fewColumns (line : Str) : Err
  | fewPopulated (line : Str) : Err
  | emptySpecies (line : Str) : Err
  | fileSpaces (line : Str) : Err
  | badExtension (line : Str) : Err
  | duplicateRow (line : Str) : Err
  | noEntries : Err
deriving DecidableEq

/-- A remainder tuple `[file, tax1, tax2, mode, uniprot]` (a Python list). -/
abbrev Rem := List Str

/-- `species_mapping_dict`, as an insertion-ordered association list. -/
abbrev SpeciesMap := List (Str × List Rem)

def lookupSp (s : Str) : SpeciesMap → Option (List Rem)
  | [] => none
  | (k, v) :: rest => if k = s then some v else lookupSp s rest

def updateSp (s : Str) (v : List Rem) : SpeciesMap → SpeciesMap
  | [] => []
  | (k, w) :: rest => if k = s then (k, v) :: rest else (k, w) :: updateSp s v rest

/-- The loop state: the species mapping plus the warnings printed so far
(each warning records the original species value it names). -/
structure St where
  map : SpeciesMap
  warns : List Str
deriving DecidableEq

def initSt : St := ⟨[], []⟩

/-- The raw species field of a data row (`lspl[0]`, before replacement). -/
def species0Of (line : Str) : Str := (parseRow line).headD []

/-- The species key of a data row, after `species.replace(" ", "_")` is
applied when `species.find(" ") != -1`. -/
def spOf (line : Str) : Str :=
  if ' ' ∈ species0Of line then spaceToUnderscore (species0Of line) else species0Of line

/-- The state after the (possible) species-whitespace warning of a row. -/
def warnSt (st : St) (line : Str) : St :=
  if ' ' ∈ species0Of line then ⟨st.map, st.warns ++ [species0Of line]⟩ else st

/-- The file field of a data row (`lspl[1]`). -/
def fileOf (line : Str) : Str := ((parseRow line).drop 1).headD []

/-- `species_info = [file, tax1, tax2, mode, uniprot]` (`lspl[1:6]`). -/
def infoOf (line : Str) : Rem := ((parseRow line).drop 1).take 5

/-- One iteration of the `for line in fin` loop of `check_samplesheet`. -/
def processLine (st : St) (line : Str) : St × Option Err :=
  if pyStrip line = [] then (st, none)
  else if (parseRow line).length < 6 then (st, some (.fewColumns line))
  else if countPop (parseRow line) < 6 then (st, some (.fewPopulated line))
  else if spOf line = [] then (warnSt st line, some (.emptySpecies line))
  else if fileOf line ≠ [] ∧ ' ' ∈ fileOf line then
    (warnSt st line, some (.fileSpaces line))
  else if fileOf line ≠ [] ∧ hasFastaExt (fileOf line) = false then
    (warnSt st line, some (.badExtension line))
  else
    match lookupSp (spOf line) (warnSt st line).map with
    | none =>
      (⟨(warnSt st line).map ++ [(spOf line, [infoOf line])], (warnSt st line).warns⟩, none)
    | some rems =>
      if infoOf line ∈ rems then (warnSt st line, some (.duplicateRow line))
      else
        (⟨updateSp (spOf line) (rems ++ [infoOf line]) (warnSt st line).map,
          (warnSt st line).warns⟩, none)

/-- The whole read loop; stops at the first fatal error. -/
def processLines : St → List Str → St × Option Err
  | st, [] => (st, none)
  | st, l :: ls =>
    match processLine st l with
    | (st', none) => processLines st' ls
    | (st', some e) => (st', some e)

/-- `'0'`‥`'9'` for `0`‥`9` (the digits produced by Python's `f"{n}"`). -/
def decDigit : Nat → Char
  | 0 => '0' | 1 => '1' | 2 => '2' | 3 => '3' | 4 => '4'
  | 5 => '5' | 6 => '6' | 7 => '7' | 8 => '8' | 9 => '9'
  | _ => '*'

/-- Fuelled digit accumulator (structural recursion; fuel `n` suffices). -/
def decAux : Nat → Nat → Str → Str
  | 0, _, acc => acc
  | _ + 1, 0, acc => acc
  | fuel + 1, n + 1, acc => decAux fuel ((n + 1) / 10) (decDigit ((n + 1) % 10) :: acc)

/-- Decimal representation of `n`, as printed by `f"{n}"`. -/
def decimal (n : Nat) : Str := if n = 0 then ['0'] else decAux n n []

/-- The run identifier `f"{species}_T{idx + 1}"`. -/
def runId (s : Str) (n : Nat) : Str := s ++ '_' :: 'T' :: decimal n

def joinComma : List Str → Str
  | [] => []
  | [x] => x
  | x :: xs => x ++ ',' :: joinComma xs

def headerLine : Str := "species,file,tax1,tax2,mode,uniprot".data

/-- Key order used to model Python's `sorted` over the dict keys. -/
def lexLt : Str → Str → Bool
  | [], [] => false
  | [], _ :: _ => true
  | _ :: _, [] => false
  | a :: as, b :: bs => decide (a < b) || (decide (a = b) && lexLt as bs)

def lexLe (a b : Str) : Bool := lexLt a b || decide (a = b)

def keyLe (p q : Str × List Rem) : Prop := lexLe p.1 q.1 = true

def keyLt (p q : Str × List Rem) : Prop := lexLt p.1 q.1 = true

instance : DecidableRel keyLe := fun _p _q => inferInstanceAs (Decidable (_ = true))

/-- `sorted(species_mapping_dict.keys())`, lifted to the association list. -/
def sortPairs (m : SpeciesMap) : SpeciesMap := List.insertionSort keyLe m

/-- `for idx, val in enumerate(...)`: the lines written for one species. -/
def linesFrom (s : Str) : Nat → List Rem → List Str
  | _, [] => []
  | n, v :: vs => joinComma (runId s n :: v) :: linesFrom s (n + 1) vs

/-- All lines written to the output file, in order. -/
def outLines (m : SpeciesMap) : List Str :=
  headerLine :: (sortPairs m).flatMap (fun p => linesFrom p.1 1 p.2)

/-- The validator as a function from input lines to output lines or an error. -/
def check (lines : List Str) : Except Err (List Str) :=
  if headerOK (lines.headD []) then
    match processLines initSt lines.tail with
    | (_, some e) => .error e
    | (st, none) =>
      if st.map = [] then .error .noEntries else .ok (outLines st.map)
  else .error .badHeader

/-- The pairs `(run id, remainder)` behind `linesFrom`. -/
def pairsFrom (s : Str) : Nat → List Rem → List (Str × Rem)
  | _, [] => []
  | n, v :: vs => (runId s n, v) :: pairsFrom s (n + 1) vs

/-- The decimal digit characters. -/
def decDigits : Str := "0123456789".data

/-- `c.toNat - 48` on the digits (inverse of `decDigit`). -/
def charVal : Char → Nat
  | '0' => 0 | '1' => 1 | '2' => 2 | '3' => 3 | '4' => 4
  | '5' => 5 | '6' => 6 | '7' => 7 | '8' => 8 | '9' => 9
  | _ => 0

/-- Numeric value of a digit string (left inverse of `decimal`). -/
def decVal (l : Str) : Nat := l.foldl (fun a c => 10 * a + charVal c) 0

/-- The file-field condition enforced by the row checks: an empty file field
is left alone, a non-empty one has no space and a valid extension. -/
def FileOK (v : Rem) : Prop :=
  v.headD [] = [] ∨ (' ' ∉ v.headD [] ∧ hasFastaExt (v.headD []) = true)

/-- Invariant of the species mapping maintained by the read loop. -/
def GoodMap (m : SpeciesMap) : Prop :=
  (m.map Prod.fst).Nodup ∧
  ∀ p ∈ m, p.1 ≠ [] ∧ ' ' ∉ p.1 ∧ ',' ∉ p.1 ∧ p.2 ≠ [] ∧ p.2.Nodup ∧
    ∀ v ∈ p.2, v.length = 5 ∧ (∀ f ∈ v, ',' ∉ f) ∧ FileOK v

/-- The extra conditions (not invariants of the loop) under which the round
trip of `check` is lossless: keys and fields are fixed points of the
per-field trimming, and fields are non-empty. -/
abbrev CleanMap (m : SpeciesMap) : Prop :=
  ∀ p ∈ m, parseField p.1 = p.1 ∧ ∀ v ∈ p.2, ∀ f ∈ v, f ≠ [] ∧ parseField f = f

/-- The per-pair conditions used when replaying an output row. -/
def GoodPair (q : Str × Rem) : Prop :=
  q.1 ≠ [] ∧ ' ' ∉ q.1 ∧ ',' ∉ q.1 ∧ parseField q.1 = q.1 ∧
  q.2.length = 5 ∧ (∀ f ∈ q.2, f ≠ [] ∧ ',' ∉ f ∧ parseField f = f) ∧ FileOK q.2

/-- Observable actions of one invocation, in order. -/
inductive Act where
  | warn (s : Str) : Act
  | mkdirOut : Act
  | openOut : Act
  | writeLine (s : Str) : Act
  | exitFail (e : Err) : Act
deriving DecidableEq

/-- The validator as an action trace: warnings happen during the read loop,
`mkdirOut`/`openOut`/`writeLine` only afterwards, `exitFail` is terminal. -/
def run (lines : List Str) : List Act :=
  if headerOK (lines.headD []) then
    match processLines initSt lines.tail with
    | (st, some e) => st.warns.map .warn ++ [.exitFail e]
    | (st, none) =>
      if st.map = [] then st.warns.map .warn ++ [.exitFail .noEntries]
      else st.warns.map .warn ++ .mkdirOut :: .openOut :: (outLines st.map).map .writeLine
  else [.exitFail .badHeader]

/-! ### Lemmas about `stripEnds`, `splitComma`, `joinComma` -/

lemma stripEnds_sublist (p : Char → Bool) (l : Str) : List.Sublist (stripEnds p l) l := by
  have h1 : List.Sublist (l.dropWhile p) l := List.dropWhile_sublist p
  have h2 : List.Sublist ((l.dropWhile p).reverse.dropWhile p) (l.dropWhile p).reverse :=
    List.dropWhile_sublist p
  have h3 : List.Sublist ((l.dropWhile p).reverse.dropWhile p).reverse (l.dropWhile p) := by
    have := List.reverse_sublist.mpr h2
    simpa using this
  exact h3.trans h1

lemma mem_of_mem_stripEnds {p : Char → Bool} {l : Str} {c : Char}
    (h : c ∈ stripEnds p l) : c ∈ l :=
  (stripEnds_sublist p l).subset h

lemma length_stripEnds_le (p : Char → Bool) (l : Str) :
    (stripEnds p l).length ≤ l.length :=
  (stripEnds_sublist p l).length_le

lemma dropWhile_eq_self_of_head (p : Char → Bool) (l : Str)
    (h : ∀ c, l.head? = some c → p c = false) : l.dropWhile p = l := by
  cases l with
  | nil => rfl
  | cons a t => rw [List.dropWhile_cons, h a rfl]; simp

lemma stripEnds_fix (p : Char → Bool) (l : Str)
    (h1 : ∀ c, l.head? = some c → p c = false)
    (h2 : ∀ c, l.getLast? = some c → p c = false) : stripEnds p l = l := by
  unfold stripEnds
  rw [dropWhile_eq_self_of_head p l h1]
  rw [dropWhile_eq_self_of_head p l.reverse
    (fun c hc => h2 c (by rwa [List.head?_reverse] at hc))]
  exact List.reverse_reverse l

lemma dropWhile_eq_self_head (p : Char → Bool) (l : Str) (h : l.dropWhile p = l) :
    ∀ c, l.head? = some c → p c = false := by
  intro c hc
  cases l with
  | nil => simp at hc
  | cons a t =>
    simp only [List.head?_cons, Option.some.injEq] at hc
    subst hc
    by_contra hp
    rw [Bool.not_eq_false] at hp
    rw [List.dropWhile_cons, if_pos hp] at h
    have := congrArg List.length h
    have hle : (t.dropWhile p).length ≤ t.length := (List.dropWhile_sublist p).length_le
    simp only [List.length_cons] at this
    omega

lemma stripEnds_fix_parts (p : Char → Bool) (l : Str) (h : stripEnds p l = l) :
    l.dropWhile p = l ∧ l.reverse.dropWhile p = l.reverse := by
  have hlen := congrArg List.length h
  have hd : l.dropWhile p = l := by
    apply (List.dropWhile_sublist p).eq_of_length
    have h1 : (stripEnds p l).length ≤ (l.dropWhile p).length := by
      unfold stripEnds
      calc (((l.dropWhile p).reverse.dropWhile p).reverse).length
          = ((l.dropWhile p).reverse.dropWhile p).length := by simp
        _ ≤ (l.dropWhile p).reverse.length := (List.dropWhile_sublist p).length_le
        _ = (l.dropWhile p).length := by simp
    have h2 : (l.dropWhile p).length ≤ l.length := (List.dropWhile_sublist p).length_le
    omega
  refine ⟨hd, ?_⟩
  unfold stripEnds at h
  rw [hd] at h
  have := congrArg List.reverse h
  simpa using this

lemma stripEnds_fix_head {p : Char → Bool} {l : Str} (h : stripEnds p l = l) :
    ∀ c, l.head? = some c → p c = false :=
  dropWhile_eq_self_head p l (stripEnds_fix_parts p l h).1

lemma stripEnds_fix_last {p : Char → Bool} {l : Str} (h : stripEnds p l = l) :
    ∀ c, l.getLast? = some c → p c = false := fun c hc =>
  dropWhile_eq_self_head p l.reverse (stripEnds_fix_parts p l h).2 c
    (by rw [List.head?_reverse]; exact hc)

lemma parseField_fix_parts (v : Str) (h : parseField v = v) :
    pyStrip v = v ∧ stripQuotes v = v := by
  have h2 : (stripEnds isWS v).length ≤ v.length := length_stripEnds_le _ _
  have h1 : (stripEnds isQuote (stripEnds isWS v)).length ≤ (stripEnds isWS v).length :=
    length_stripEnds_le _ _
  have h3 : (stripEnds isQuote (stripEnds isWS v)).length = v.length := by
    have h4 : parseField v = v := h
    unfold parseField pyStrip stripQuotes at h4
    rw [h4]
  have hp : stripEnds isWS v = v := (stripEnds_sublist isWS v).eq_of_length (by omega)
  constructor
  · exact hp
  · have h4 : parseField v = v := h
    unfold parseField pyStrip stripQuotes at h4
    unfold stripQuotes
    rwa [hp] at h4

lemma splitComma_ne_nil (l : Str) : splitComma l ≠ [] := by
  induction l with
  | nil => simp [splitComma]
  | cons c cs ih =>
    by_cases hc : c = ','
    · simp [splitComma, hc]
    · simp only [splitComma, if_neg hc]
      cases h : splitComma cs <;> simp

lemma mem_splitComma_no_comma (l : Str) : ∀ part ∈ splitComma l, ',' ∉ part := by
  induction l with
  | nil =>
    intro part hp
    simp only [splitComma, List.mem_singleton] at hp
    simp [hp]
  | cons c cs ih =>
    intro part hp
    by_cases hc : c = ','
    · simp only [splitComma, if_pos hc, List.mem_cons] at hp
      rcases hp with rfl | hp
      · simp
      · exact ih part hp
    · simp only [splitComma, if_neg hc] at hp
      cases h : splitComma cs with
      | nil => exact absurd h (splitComma_ne_nil cs)
      | cons q qs =>
        rw [h] at hp
        simp only [List.mem_cons] at hp
        rcases hp with rfl | hp
        · intro hmem
          rcases List.mem_cons.mp hmem with rfl | hmem
          · exact hc rfl
          · exact ih q (h ▸ List.mem_cons_self q qs) hmem
        · exact ih part (h ▸ List.mem_cons_of_mem q hp)

lemma splitComma_append (l1 l2 : Str) :
    splitComma (l1 ++ ',' :: l2) = splitComma l1 ++ splitComma l2 := by
  induction l1 with
  | nil => simp [splitComma]
  | cons c cs ih =>
    by_cases hc : c = ','
    · simp only [List.cons_append, splitComma, if_pos hc, List.append_eq, ih]
    · simp only [List.cons_append, splitComma, if_neg hc, List.append_eq, ih]
      cases h : splitComma cs with
      | nil => exact absurd h (splitComma_ne_nil cs)
      | cons q qs => simp [h]

lemma splitComma_no_comma (l : Str) (h : ',' ∉ l) : splitComma l = [l] := by
  induction l with
  | nil => rfl
  | cons c cs ih =>
    have hc : c ≠ ',' := fun hc => h (hc ▸ List.mem_cons_self c cs)
    have hcs : ',' ∉ cs := fun hm => h (List.mem_cons_of_mem c hm)
    simp only [splitComma, if_neg hc, ih hcs]

lemma joinComma_cons (x : Str) (xs : List Str) (h : xs ≠ []) :
    joinComma (x :: xs) = x ++ ',' :: joinComma xs := by
  cases xs with
  | nil => exact absurd rfl h
  | cons y ys => rfl

lemma splitComma_joinComma (parts : List Str) (hne : parts ≠ [])
    (h : ∀ x ∈ parts, ',' ∉ x) : splitComma (joinComma parts) = parts := by
  induction parts with
  | nil => exact absurd rfl hne
  | cons x xs ih =>
    cases xs with
    | nil =>
      show splitComma (joinComma [x]) = [x]
      exact splitComma_no_comma x (h x (List.mem_cons_self x []))
    | cons y ys =>
      rw [joinComma_cons x (y :: ys) (by simp), splitComma_append]
      rw [splitComma_no_comma x (h x (List.mem_cons_self _ _))]
      rw [ih (by simp) (fun z hz => h z (List.mem_cons_of_mem x hz))]
      rfl

lemma joinComma_ne_nil (x : Str) (xs : List Str) (hx : x ≠ []) :
    joinComma (x :: xs) ≠ [] := by
  cases xs with
  | nil => exact hx
  | cons y ys => rw [joinComma_cons x (y :: ys) (by simp)]; simp [hx]

lemma joinComma_head? (x : Str) (xs : List Str) (hx : x ≠ []) :
    (joinComma (x :: xs)).head? = x.head? := by
  cases xs with
  | nil => rfl
  | cons y ys =>
    rw [joinComma_cons x (y :: ys) (by simp), List.head?_append]
    cases x with
    | nil => exact absurd rfl hx
    | cons a t => rfl

lemma getLast?_some_of_ne_nil (l : Str) (h : l ≠ []) : ∃ c, l.getLast? = some c := by
  rw [← List.head?_reverse]
  cases hr : l.reverse with
  | nil => exact absurd (by simpa using congrArg List.reverse hr) h
  | cons a t => exact ⟨a, rfl⟩

lemma joinComma_getLast? (parts : List Str) (hne : parts ≠ [])
    (hall : ∀ x ∈ parts, x ≠ []) :
    ∃ y ∈ parts, (joinComma parts).getLast? = y.getLast? := by
  induction parts with
  | nil => exact absurd rfl hne
  | cons x xs ih =>
    cases xs with
    | nil => exact ⟨x, List.mem_cons_self x [], rfl⟩
    | cons y ys =>
      obtain ⟨z, hz, hzl⟩ := ih (by simp)
        (fun w hw => hall w (List.mem_cons_of_mem x hw))
      refine ⟨z, List.mem_cons_of_mem x hz, ?_⟩
      rw [joinComma_cons x (y :: ys) (by simp), List.getLast?_append]
      have hjy : joinComma (y :: ys) ≠ [] :=
        joinComma_ne_nil y ys (hall y (by simp))
      obtain ⟨c, hc⟩ := getLast?_some_of_ne_nil _ hjy
      have : (',' :: joinComma (y :: ys)).getLast? = some c := by
        rw [show (',' :: joinComma (y :: ys)) = [','] ++ joinComma (y :: ys) from rfl,
          List.getLast?_append, hc]
        rfl
      rw [this, hzl.symm, hc]
      rfl

/-! ### Parsing round trip and field facts -/

lemma pyStrip_joinComma (parts : List Str) (hne : parts ≠ [])
    (hall : ∀ x ∈ parts, x ≠ [] ∧ parseField x = x) :
    pyStrip (joinComma parts) = joinComma parts := by
  cases parts with
  | nil => exact absurd rfl hne
  | cons x xs =>
    apply stripEnds_fix
    · intro c hc
      rw [joinComma_head? x xs (hall x (by simp)).1] at hc
      have hx := (parseField_fix_parts x (hall x (by simp)).2).1
      exact stripEnds_fix_head hx c hc
    · intro c hc
      obtain ⟨y, hy, hyl⟩ := joinComma_getLast? (x :: xs) (by simp)
        (fun w hw => (hall w hw).1)
      rw [hyl] at hc
      have hYfix := (parseField_fix_parts y (hall y hy).2).1
      exact stripEnds_fix_last hYfix c hc

lemma map_parseField_self (parts : List Str) (h : ∀ x ∈ parts, parseField x = x) :
    parts.map parseField = parts := by
  induction parts with
  | nil => rfl
  | cons x xs ih =>
    simp only [List.map_cons, h x (by simp),
      ih (fun z hz => h z (List.mem_cons_of_mem x hz))]

lemma parseRow_joinComma (parts : List Str) (hne : parts ≠ [])
    (hall : ∀ x ∈ parts, x ≠ [] ∧ ',' ∉ x ∧ parseField x = x) :
    parseRow (joinComma parts) = parts := by
  unfold parseRow
  rw [pyStrip_joinComma parts hne (fun x hx => ⟨(hall x hx).1, (hall x hx).2.2⟩)]
  rw [splitComma_joinComma parts hne (fun x hx => (hall x hx).2.1)]
  exact map_parseField_self parts (fun x hx => (hall x hx).2.2)

lemma parseRow_no_comma (line : Str) : ∀ f ∈ parseRow line, ',' ∉ f := by
  intro f hf
  unfold parseRow at hf
  obtain ⟨x, hx, rfl⟩ := List.mem_map.mp hf
  intro hmem
  have h1 : ',' ∈ x :=
    mem_of_mem_stripEnds (mem_of_mem_stripEnds hmem)
  exact mem_splitComma_no_comma _ x hx h1

lemma spaceToUnderscore_no_space (s : Str) : ' ' ∉ spaceToUnderscore s := by
  intro h
  obtain ⟨c, _, hc⟩ := List.mem_map.mp h
  by_cases h1 : c = ' ' <;> simp [h1] at hc

lemma spaceToUnderscore_no_comma (s : Str) (h : ',' ∉ s) :
    ',' ∉ spaceToUnderscore s := by
  intro hm
  obtain ⟨c, hc, hc2⟩ := List.mem_map.mp hm
  by_cases h1 : c = ' ' <;> simp [h1] at hc2
  exact h (hc2 ▸ hc)

lemma spaceToUnderscore_ne_nil (s : Str) (h : s ≠ []) :
    spaceToUnderscore s ≠ [] := by
  cases s with
  | nil => exact absurd rfl h
  | cons a t => simp [spaceToUnderscore]

lemma countPop_le_length (l : List Str) : countPop l ≤ l.length :=
  (List.filter_sublist l).length_le

lemma countPop_all (l : List Str) (h : ∀ x ∈ l, x ≠ []) : countPop l = l.length := by
  unfold countPop
  rw [List.filter_eq_self.mpr]
  intro a ha
  simpa using h a ha

/-! ### Decimal representation -/

lemma decDigit_mem (m : Nat) (h : m < 10) : decDigit m ∈ decDigits := by
  interval_cases m <;> decide

lemma charVal_decDigit (m : Nat) (h : m < 10) : charVal (decDigit m) = m := by
  interval_cases m <;> decide

lemma decAux_subset (fuel : Nat) :
    ∀ n acc c, c ∈ decAux fuel n acc → c ∈ acc ∨ c ∈ decDigits := by
  induction fuel with
  | zero => intro n acc c hc; exact Or.inl hc
  | succ fuel ih =>
    intro n acc c hc
    cases n with
    | zero => exact Or.inl hc
    | succ n =>
      rcases ih ((n + 1) / 10) (decDigit ((n + 1) % 10) :: acc) c hc with h | h
      · rcases List.mem_cons.mp h with rfl | h
        · exact Or.inr (decDigit_mem _ (Nat.mod_lt _ (by omega)))
        · exact Or.inl h
      · exact Or.inr h

lemma decimal_mem_digits (n : Nat) : ∀ c ∈ decimal n, c ∈ decDigits := by
  intro c hc
  unfold decimal at hc
  by_cases h : n = 0
  · rw [if_pos h] at hc
    simp only [List.mem_singleton] at hc
    subst hc; decide
  · rw [if_neg h] at hc
    rcases decAux_subset n n [] c hc with h1 | h1
    · simp at h1
    · exact h1

lemma decAux_length (fuel : Nat) :
    ∀ n acc, acc.length ≤ (decAux fuel n acc).length := by
  induction fuel with
  | zero => intro n acc; exact Nat.le_refl _
  | succ fuel ih =>
    intro n acc
    cases n with
    | zero => exact Nat.le_refl _
    | succ n =>
      calc acc.length ≤ (decDigit ((n + 1) % 10) :: acc).length := by simp
        _ ≤ _ := ih ((n + 1) / 10) _

lemma decimal_ne_nil (n : Nat) : decimal n ≠ [] := by
  unfold decimal
  by_cases h : n = 0
  · rw [if_pos h]; simp
  · rw [if_neg h]
    cases n with
    | zero => exact absurd rfl h
    | succ n =>
      intro hnil
      have h1 := decAux_length n ((n + 1) / 10) [decDigit ((n + 1) % 10)]
      have h2 : decAux n ((n + 1) / 10) [decDigit ((n + 1) % 10)] = [] := hnil
      rw [h2] at h1
      simp at h1

lemma decAux_append (fuel : Nat) :
    ∀ n acc, decAux fuel n acc = decAux fuel n [] ++ acc := by
  induction fuel with
  | zero => intro n acc; rfl
  | succ fuel ih =>
    intro n acc
    cases n with
    | zero => rfl
    | succ n =>
      have h1 : decAux (fuel + 1) (n + 1) acc
          = decAux fuel ((n + 1) / 10) (decDigit ((n + 1) % 10) :: acc) := rfl
      have h2 : decAux (fuel + 1) (n + 1) []
          = decAux fuel ((n + 1) / 10) [decDigit ((n + 1) % 10)] := rfl
      rw [h1, h2, ih ((n + 1) / 10) (decDigit ((n + 1) % 10) :: acc),
        ih ((n + 1) / 10) [decDigit ((n + 1) % 10)]]
      simp

lemma decVal_concat (l : Str) (c : Char) :
    decVal (l ++ [c]) = 10 * decVal l + charVal c := by
  unfold decVal
  rw [List.foldl_append]
  rfl

lemma decVal_decAux (fuel : Nat) : ∀ n, n ≤ fuel → decVal (decAux fuel n []) = n := by
  induction fuel with
  | zero =>
    intro n hn
    interval_cases n
    rfl
  | succ fuel ih =>
    intro n hn
    cases n with
    | zero => rfl
    | succ n =>
      show decVal (decAux fuel ((n + 1) / 10) [decDigit ((n + 1) % 10)]) = n + 1
      rw [decAux_append fuel ((n + 1) / 10) [decDigit ((n + 1) % 10)]]
      rw [decVal_concat]
      have hq : (n + 1) / 10 ≤ fuel := by
        have h5 : (n + 1) / 10 < n + 1 := Nat.div_lt_self (by omega) (by omega)
        omega
      rw [ih ((n + 1) / 10) hq, charVal_decDigit _ (Nat.mod_lt _ (by omega))]
      omega

lemma decVal_decimal (n : Nat) : decVal (decimal n) = n := by
  unfold decimal
  by_cases h : n = 0
  · rw [if_pos h, h]; rfl
  · rw [if_neg h]; exact decVal_decAux n n (Nat.le_refl n)

lemma decimal_injective {a b : Nat} (h : decimal a = decimal b) : a = b := by
  have := congrArg decVal h
  rwa [decVal_decimal, decVal_decimal] at this

/-! ### `runId` injectivity -/

lemma rev_digit_frame :
    ∀ (e1 e2 t1 t2 : Str), (∀ c ∈ e1, c ∈ decDigits) → (∀ c ∈ e2, c ∈ decDigits) →
      e1 ++ 'T' :: t1 = e2 ++ 'T' :: t2 → e1 = e2 ∧ t1 = t2 := by
  intro e1
  induction e1 with
  | nil =>
    intro e2 t1 t2 _ h2 heq
    cases e2 with
    | nil => simpa using heq
    | cons c e2 =>
      simp only [List.nil_append, List.cons_append, List.cons.injEq] at heq
      exfalso
      have hc : c ∈ decDigits := h2 c (by simp)
      rw [← heq.1] at hc
      revert hc; decide
  | cons c1 e1 ih =>
    intro e2 t1 t2 h1 h2 heq
    cases e2 with
    | nil =>
      simp only [List.cons_append, List.nil_append, List.cons.injEq] at heq
      exfalso
      have hc : c1 ∈ decDigits := h1 c1 (by simp)
      rw [heq.1] at hc
      revert hc; decide
    | cons c2 e2 =>
      simp only [List.cons_append, List.cons.injEq] at heq
      obtain ⟨rfl, heq2⟩ := heq
      obtain ⟨he, ht⟩ := ih e2 t1 t2
        (fun c hc => h1 c (List.mem_cons_of_mem _ hc))
        (fun c hc => h2 c (List.mem_cons_of_mem _ hc)) heq2
      exact ⟨by rw [he], ht⟩

lemma runId_inj {s1 s2 : Str} {n1 n2 : Nat} (h : runId s1 n1 = runId s2 n2) :
    s1 = s2 ∧ n1 = n2 := by
  unfold runId at h
  have hrev := congrArg List.reverse h
  simp only [List.reverse_append, List.reverse_cons, List.append_assoc,
    List.nil_append, List.cons_append] at hrev
  have hframe := rev_digit_frame (decimal n1).reverse (decimal n2).reverse
    ('_' :: s1.reverse) ('_' :: s2.reverse)
    (fun c hc => decimal_mem_digits n1 c (List.mem_reverse.mp hc))
    (fun c hc => decimal_mem_digits n2 c (List.mem_reverse.mp hc))
    (by simpa using hrev)
  obtain ⟨hd, ht⟩ := hframe
  constructor
  · have := congrArg List.reverse (List.cons.injEq _ _ _ _ ▸ ht : '_' :: s1.reverse = '_' :: s2.reverse)
    simp only [List.cons.injEq] at ht
    have := congrArg List.reverse ht.2
    simpa using this
  · have := congrArg List.reverse hd
    simp only [List.reverse_reverse] at this
    exact decimal_injective this

/-! ### The key order -/

lemma lexLt_trichotomy (a : Str) : ∀ b, lexLt a b = true ∨ a = b ∨ lexLt b a = true := by
  induction a with
  | nil =>
    intro b
    cases b with
    | nil => exact Or.inr (Or.inl rfl)
    | cons d ds => exact Or.inl (by simp [lexLt])
  | cons c cs ih =>
    intro b
    cases b with
    | nil => exact Or.inr (Or.inr (by simp [lexLt]))
    | cons d ds =>
      rcases lt_trichotomy c d with h | h | h
      · exact Or.inl (by simp [lexLt, h])
      · subst h
        rcases ih ds with h2 | h2 | h2
        · exact Or.inl (by simp [lexLt, h2])
        · exact Or.inr (Or.inl (by rw [h2]))
        · exact Or.inr (Or.inr (by simp [lexLt, h2]))
      · exact Or.inr (Or.inr (by simp [lexLt, h]))

lemma lexLt_trans (a : Str) :
    ∀ b c, lexLt a b = true → lexLt b c = true → lexLt a c = true := by
  induction a with
  | nil =>
    intro b c hab hbc
    cases c with
    | nil =>
      cases b with
      | nil => simp [lexLt] at hab
      | cons d ds => simp [lexLt] at hbc
    | cons e es => simp [lexLt]
  | cons x xs ih =>
    intro b c hab hbc
    cases b with
    | nil => simp [lexLt] at hab
    | cons y ys =>
      cases c with
      | nil => simp [lexLt] at hbc
      | cons z zs =>
        simp only [lexLt, Bool.or_eq_true, Bool.and_eq_true, decide_eq_true_eq]
          at hab hbc ⊢
        rcases hab with h1 | ⟨rfl, h1⟩
        · rcases hbc with h2 | ⟨rfl, h2⟩
          · exact Or.inl (lt_trans h1 h2)
          · exact Or.inl h1
        · rcases hbc with h2 | ⟨rfl, h2⟩
          · exact Or.inl h2
          · exact Or.inr ⟨rfl, ih ys zs h1 h2⟩

lemma lexLe_total (a b : Str) : lexLe a b = true ∨ lexLe b a = true := by
  unfold lexLe
  rcases lexLt_trichotomy a b with h | h | h
  · exact Or.inl (by simp [h])
  · exact Or.inl (by simp [h])
  · exact Or.inr (by simp [h])

lemma lexLe_trans (a b c : Str) (h1 : lexLe a b = true) (h2 : lexLe b c = true) :
    lexLe a c = true := by
  unfold lexLe at h1 h2 ⊢
  simp only [Bool.or_eq_true, decide_eq_true_eq] at h1 h2 ⊢
  rcases h1 with h1 | rfl
  · rcases h2 with h2 | rfl
    · exact Or.inl (lexLt_trans a b c h1 h2)
    · exact Or.inl h1
  · exact h2

instance : IsTotal (Str × List Rem) keyLe := ⟨fun p q => lexLe_total p.1 q.1⟩

instance : IsTrans (Str × List Rem) keyLe := ⟨fun p q r => lexLe_trans p.1 q.1 r.1⟩

lemma keyLt_of_keyLe_ne {p q : Str × List Rem} (h : keyLe p q) (hne : p.1 ≠ q.1) :
    keyLt p q := by
  unfold keyLe lexLe at h
  unfold keyLt
  simp only [Bool.or_eq_true, decide_eq_true_eq] at h
  rcases h with h | h
  · exact h
  · exact absurd h hne

lemma sortPairs_perm (m : SpeciesMap) : (sortPairs m).Perm m :=
  List.perm_insertionSort keyLe m

lemma sortPairs_sorted (m : SpeciesMap) : List.Sorted keyLe (sortPairs m) :=
  List.sorted_insertionSort keyLe m

/-! ### `lookupSp` and `updateSp` -/

lemma lookupSp_eq_none (s : Str) (m : SpeciesMap) :
    lookupSp s m = none ↔ s ∉ m.map Prod.fst := by
  induction m with
  | nil => simp [lookupSp]
  | cons p rest ih =>
    obtain ⟨k, v⟩ := p
    by_cases hk : k = s
    · subst hk; simp [lookupSp]
    · rw [show lookupSp s ((k, v) :: rest) = lookupSp s rest from by
        simp [lookupSp, hk]]
      simp only [List.map_cons, List.mem_cons]
      rw [ih]
      constructor
      · intro h hmem
        rcases hmem with rfl | hmem
        · exact hk rfl
        · exact h hmem
      · intro h hmem
        exact h (Or.inr hmem)

lemma lookupSp_mem {s : Str} {m : SpeciesMap} {v : List Rem}
    (h : lookupSp s m = some v) : (s, v) ∈ m := by
  induction m with
  | nil => simp [lookupSp] at h
  | cons p rest ih =>
    obtain ⟨k, w⟩ := p
    by_cases hk : k = s
    · subst hk
      have h2 : lookupSp k ((k, w) :: rest) = some w := by simp [lookupSp]
      rw [h2] at h
      injection h with h
      subst h
      exact List.mem_cons_self _ _
    · simp only [lookupSp, if_neg hk] at h
      exact List.mem_cons_of_mem _ (ih h)

lemma updateSp_keys (s : Str) (v : List Rem) (m : SpeciesMap) :
    (updateSp s v m).map Prod.fst = m.map Prod.fst := by
  induction m with
  | nil => rfl
  | cons p rest ih =>
    obtain ⟨k, w⟩ := p
    by_cases hk : k = s
    · simp [updateSp, hk]
    · simp [updateSp, hk, ih]

lemma mem_updateSp {s : Str} {v : List Rem} {m : SpeciesMap} {q : Str × List Rem}
    (h : q ∈ updateSp s v m) : q ∈ m ∨ q = (s, v) := by
  induction m with
  | nil => simp [updateSp] at h
  | cons p rest ih =>
    obtain ⟨k, w⟩ := p
    by_cases hk : k = s
    · subst hk
      have h2 : updateSp k v ((k, w) :: rest) = (k, v) :: rest := by
        simp [updateSp]
      rw [h2] at h
      rcases List.mem_cons.mp h with h3 | h3
      · exact Or.inr h3
      · exact Or.inl (List.mem_cons_of_mem _ h3)
    · simp only [updateSp, if_neg hk, List.mem_cons] at h
      rcases h with h3 | h3
      · exact Or.inl (h3 ▸ List.mem_cons_self _ _)
      · rcases ih h3 with h4 | h4
        · exact Or.inl (List.mem_cons_of_mem _ h4)
        · exact Or.inr h4

lemma lookupSp_updateSp_self {s : Str} {v : List Rem} {m : SpeciesMap}
    (h : lookupSp s m ≠ none) : lookupSp s (updateSp s v m) = some v := by
  induction m with
  | nil => simp [lookupSp] at h
  | cons p rest ih =>
    obtain ⟨k, w⟩ := p
    by_cases hk : k = s
    · subst hk
      simp [updateSp, lookupSp]
    · simp only [lookupSp, if_neg hk] at h
      simp only [updateSp, if_neg hk, lookupSp, if_neg hk]
      exact ih h

lemma lookupSp_append_right {s : Str} {m : SpeciesMap} (m2 : SpeciesMap)
    (h : lookupSp s m = none) : lookupSp s (m ++ m2) = lookupSp s m2 := by
  induction m with
  | nil => rfl
  | cons p rest ih =>
    obtain ⟨k, w⟩ := p
    by_cases hk : k = s
    · subst hk; simp [lookupSp] at h
    · simp only [lookupSp, if_neg hk] at h
      simp only [List.cons_append, lookupSp, if_neg hk]
      exact ih h

/-! ### Row-field helpers -/

lemma warnSt_map (st : St) (line : Str) : (warnSt st line).map = st.map := by
  unfold warnSt
  split <;> rfl

lemma spOf_no_space (line : Str) : ' ' ∉ spOf line := by
  unfold spOf
  by_cases h : ' ' ∈ species0Of line
  · rw [if_pos h]; exact spaceToUnderscore_no_space _
  · rw [if_neg h]; exact h

lemma species0Of_mem (line : Str) (h : parseRow line ≠ []) :
    species0Of line ∈ parseRow line := by
  unfold species0Of
  cases hp : parseRow line with
  | nil => exact absurd hp h
  | cons a t => simp

lemma spOf_no_comma (line : Str) (h : parseRow line ≠ []) : ',' ∉ spOf line := by
  have hc : ',' ∉ species0Of line :=
    parseRow_no_comma line _ (species0Of_mem line h)
  unfold spOf
  by_cases hsp : ' ' ∈ species0Of line
  · rw [if_pos hsp]; exact spaceToUnderscore_no_comma _ hc
  · rw [if_neg hsp]; exact hc

lemma infoOf_length (line : Str) (h : 6 ≤ (parseRow line).length) :
    (infoOf line).length = 5 := by
  unfold infoOf
  rw [List.length_take, List.length_drop]
  omega

lemma infoOf_no_comma (line : Str) : ∀ f ∈ infoOf line, ',' ∉ f := fun f hf =>
  parseRow_no_comma line f (List.drop_subset _ _ (List.take_subset _ _ hf))

lemma infoOf_headD (line : Str) : (infoOf line).headD [] = fileOf line := by
  unfold infoOf fileOf
  cases (parseRow line).drop 1 with
  | nil => rfl
  | cons a t => rfl

/-! ### The branch structure of `processLine` -/

lemma processLine_shape (st : St) (line : Str) :
    ((processLine st line).1.map = st.map ∧ ∃ e, (processLine st line).2 = some e) ∨
    (processLine st line = (st, none) ∧ pyStrip line = []) ∨
    ((processLine st line).2 = none ∧ 6 ≤ (parseRow line).length ∧ spOf line ≠ [] ∧
      FileOK (infoOf line) ∧
      ((lookupSp (spOf line) st.map = none ∧
         (processLine st line).1.map = st.map ++ [(spOf line, [infoOf line])]) ∨
       (∃ rems, lookupSp (spOf line) st.map = some rems ∧ infoOf line ∉ rems ∧
         (processLine st line).1.map = updateSp (spOf line) (rems ++ [infoOf line]) st.map))) := by
  unfold processLine
  by_cases h0 : pyStrip line = []
  · rw [if_pos h0]
    exact Or.inr (Or.inl ⟨rfl, h0⟩)
  rw [if_neg h0]
  by_cases h1 : (parseRow line).length < 6
  · rw [if_pos h1]
    exact Or.inl ⟨rfl, _, rfl⟩
  rw [if_neg h1]
  by_cases h2 : countPop (parseRow line) < 6
  · rw [if_pos h2]
    exact Or.inl ⟨rfl, _, rfl⟩
  rw [if_neg h2]
  by_cases h3 : spOf line = []
  · rw [if_pos h3]
    exact Or.inl ⟨warnSt_map st line, _, rfl⟩
  rw [if_neg h3]
  by_cases h4 : fileOf line ≠ [] ∧ ' ' ∈ fileOf line
  · rw [if_pos h4]
    exact Or.inl ⟨warnSt_map st line, _, rfl⟩
  rw [if_neg h4]
  by_cases h5 : fileOf line ≠ [] ∧ hasFastaExt (fileOf line) = false
  · rw [if_pos h5]
    exact Or.inl ⟨warnSt_map st line, _, rfl⟩
  rw [if_neg h5]
  have hfo : FileOK (infoOf line) := by
    rw [FileOK, infoOf_headD]
    by_cases hf : fileOf line = []
    · exact Or.inl hf
    · refine Or.inr ⟨fun hsp => h4 ⟨hf, hsp⟩, ?_⟩
      cases hx : hasFastaExt (fileOf line) with
      | true => rfl
      | false => exact absurd ⟨hf, hx⟩ h5
  cases hlk : lookupSp (spOf line) (warnSt st line).map with
  | none =>
    dsimp only
    refine Or.inr (Or.inr ⟨rfl, by omega, h3, hfo, Or.inl ⟨?_, ?_⟩⟩)
    · rwa [warnSt_map] at hlk
    · rw [warnSt_map]
  | some rems =>
    dsimp only
    by_cases h6 : infoOf line ∈ rems
    · rw [if_pos h6]
      exact Or.inl ⟨warnSt_map st line, _, rfl⟩
    · rw [if_neg h6]
      refine Or.inr (Or.inr ⟨rfl, by omega, h3, hfo,
        Or.inr ⟨rems, ?_, h6, ?_⟩⟩)
      · rwa [warnSt_map] at hlk
      · rw [warnSt_map]

/-! ### The loop invariant `GoodMap` -/

lemma goodMap_nil : GoodMap [] := by
  constructor
  · simp
  · intro p hp
    simp at hp

lemma processLine_goodMap (st : St) (line : Str) (h : GoodMap st.map) :
    GoodMap (processLine st line).1.map := by
  rcases processLine_shape st line with ⟨hm, _⟩ | ⟨hm, _⟩ | ⟨_, hlen, hsp, hfo, hcase⟩
  · rwa [hm]
  · rw [hm]
    exact h
  have hrne : parseRow line ≠ [] := by
    intro hx
    rw [hx] at hlen
    simp at hlen
  rcases hcase with ⟨hlk, hm⟩ | ⟨rems, hlk, hnotin, hm⟩
  · rw [hm]
    obtain ⟨hnd, hmem⟩ := h
    constructor
    · rw [List.map_append]
      simp only [List.map_cons, List.map_nil]
      rw [List.nodup_append]
      refine ⟨hnd, by simp, ?_⟩
      intro a ha hb
      simp only [List.mem_cons, List.not_mem_nil, or_false] at hb
      subst hb
      exact (lookupSp_eq_none _ _).mp hlk ha
    · intro p hp
      rcases List.mem_append.mp hp with hp | hp
      · exact hmem p hp
      · simp only [List.mem_singleton] at hp
        subst hp
        refine ⟨hsp, spOf_no_space line, spOf_no_comma line hrne, by simp, by simp, ?_⟩
        intro v hv
        simp only [List.mem_singleton] at hv
        subst hv
        exact ⟨infoOf_length line hlen, infoOf_no_comma line, hfo⟩
  · rw [hm]
    obtain ⟨hnd, hmem⟩ := h
    have hold : (spOf line, rems) ∈ st.map := lookupSp_mem hlk
    constructor
    · rwa [updateSp_keys]
    · intro p hp
      rcases mem_updateSp hp with hp | hp
      · exact hmem p hp
      · subst hp
        obtain ⟨hk1, hk2, hk3, _, hk5, hk6⟩ := hmem _ hold
        refine ⟨hk1, hk2, hk3, by simp, ?_, ?_⟩
        · rw [List.nodup_append]
          refine ⟨hk5, by simp, ?_⟩
          intro a ha hb
          simp only [List.mem_cons, List.not_mem_nil, or_false] at hb
          subst hb
          exact hnotin ha
        · intro v hv
          rcases List.mem_append.mp hv with hv | hv
          · exact hk6 v hv
          · simp only [List.mem_singleton] at hv
            subst hv
            exact ⟨infoOf_length line hlen, infoOf_no_comma line, hfo⟩

lemma processLines_goodMap (lines : List Str) :
    ∀ st, GoodMap st.map → GoodMap (processLines st lines).1.map := by
  induction lines with
  | nil => intro st h; exact h
  | cons l ls ih =>
    intro st h
    show GoodMap (processLines st (l :: ls)).1.map
    unfold processLines
    cases hp : processLine st l with
    | mk st' eopt =>
      have hg : GoodMap st'.map := by
        have := processLine_goodMap st l h
        rwa [hp] at this
      cases eopt with
      | none => exact ih st' hg
      | some e => exact hg

lemma processLines_initSt_goodMap (lines : List Str) {st : St} {eopt : Option Err}
    (h : processLines initSt lines = (st, eopt)) : GoodMap st.map := by
  have := processLines_goodMap lines initSt goodMap_nil
  rw [h] at this
  exact this

/-! ### Header acceptance -/

lemma pyStrip_header_tail (rest : Str) :
    ∃ r2, pyStrip (headerLine ++ ',' :: rest) = headerLine ++ ',' :: r2 := by
  unfold pyStrip stripEnds
  have h1 : (headerLine ++ ',' :: rest).dropWhile isWS = headerLine ++ ',' :: rest :=
    dropWhile_eq_self_of_head _ _ (by intro c hc; injection hc with hc; subst hc; rfl)
  rw [h1, List.reverse_append, List.reverse_cons, List.append_assoc,
    List.dropWhile_append]
  by_cases he : (rest.reverse.dropWhile isWS).isEmpty
  · rw [if_pos he]
    refine ⟨[], ?_⟩
    have h2 : ([','] ++ headerLine.reverse).dropWhile isWS = [','] ++ headerLine.reverse :=
      dropWhile_eq_self_of_head _ _ (by intro c hc; injection hc with hc; subst hc; rfl)
    rw [h2]
    simp
  · rw [if_neg he]
    refine ⟨(rest.reverse.dropWhile isWS).reverse, ?_⟩
    rw [List.reverse_append, List.reverse_append]
    simp

lemma header_tail_ok (rest : Str) : headerOK (headerLine ++ ',' :: rest) := by
  obtain ⟨r2, hps⟩ := pyStrip_header_tail rest
  show (headerFields (headerLine ++ ',' :: rest)).take 6 = HEADER
  unfold headerFields
  rw [hps]
  have hsc : splitComma headerLine = HEADER := by decide
  have hsplit : splitComma (headerLine ++ ',' :: r2) = HEADER ++ splitComma r2 := by
    rw [splitComma_append, hsc]
  rw [hsplit, List.map_append]
  have hmap : HEADER.map stripQuotes = HEADER := by decide
  rw [hmap]
  have hlen : (HEADER).length = 6 := by decide
  rw [← hlen, List.take_left]

/-- Claim C3 (counterexample): the row `a,b,c,d,e,` splits into 6 fields, so it
passes the minimum-column-count check, yet only 5 of them are non-empty, and the
row is rejected by the populated-columns check — the check is not redundant. -/
theorem claim_C3_counterexample :
    6 ≤ (parseRow ("a,b,c,d,e,".data)).length ∧
    countPop (parseRow ("a,b,c,d,e,".data)) < 6 ∧
    (processLine initSt ("a,b,c,d,e,".data)).2
      = some (Err.fewPopulated ("a,b,c,d,e,".data)) := by
  refine ⟨by decide, by decide, by decide⟩

/-- Claim C3 (amended): the subsumption holds in the opposite direction only —
every row that passes the minimum-populated-columns check (at least 6 non-empty
fields) also passes the minimum-column-count check, because the number of
non-empty fields never exceeds the number of fields. -/
theorem claim_C3 (line : Str) (h : 6 ≤ countPop (parseRow line)) :
    6 ≤ (parseRow line).length :=
  le_trans h (countPop_le_length _)

/-- Claim C3 (witness): the amended direction at a concrete row. -/
theorem claim_C3_witness :
    6 ≤ countPop (parseRow ("a,b,c,d,e,f".data)) ∧
    6 ≤ (parseRow ("a,b,c,d,e,f".data)).length :=
  ⟨by decide, claim_C3 ("a,b,c,d,e,f".data) (by decide)⟩

/-- Claim C6 (counterexample): in the header `species, file,...` the second
field keeps its leading space (fields are only quote-stripped), so this header,
whose tokens match the expected names after whitespace trimming, is rejected. -/
theorem claim_C6_counterexample :
    (headerFields ("species, file,tax1,tax2,mode,uniprot".data))[1]?
      = some (" file".data) ∧
    ¬ headerOK ("species, file,tax1,tax2,mode,uniprot".data) ∧
    check ["species, file,tax1,tax2,mode,uniprot".data, "a,f.fa,b,c,d,e".data]
      = .error .badHeader :=
  ⟨by decide, by decide, rfl⟩

/-- Claim C6 (amended): the first line is whitespace-stripped as a whole and
split on commas, and each field is only quote-stripped (no per-field whitespace
trimming, so a header with spaces after the commas is rejected); the exact
header extended by arbitrary extra columns is accepted, and on any mismatch of
the first 6 tokens the run produces only a fatal header error and no output. -/
theorem claim_C6 (rest : Str) (lines : List Str)
    (hbad : ¬ headerOK (lines.headD [])) :
    headerOK (headerLine ++ ',' :: rest) ∧ headerOK headerLine ∧
    run lines = [Act.exitFail Err.badHeader] ∧ check lines = .error .badHeader := by
  refine ⟨header_tail_ok rest, by decide, ?_, ?_⟩
  · unfold run
    rw [if_neg hbad]
  · unfold check
    rw [if_neg hbad]

/-- Claim C6 (witness): the amended claim at a concrete trailing column and a
concrete rejected header. -/
theorem claim_C6_witness :
    (¬ headerOK (["species, file,tax1,tax2,mode,uniprot".data].headD [])) ∧
    (headerOK (headerLine ++ ',' :: "extra".data) ∧ headerOK headerLine ∧
      run ["species, file,tax1,tax2,mode,uniprot".data]
        = [Act.exitFail Err.badHeader] ∧
      check ["species, file,tax1,tax2,mode,uniprot".data] = .error .badHeader) :=
  ⟨by decide, claim_C6 ("extra".data)
    ["species, file,tax1,tax2,mode,uniprot".data] (by decide)⟩

/-- Claim C9: whenever the validator fails fatally, its action trace consists
of warnings followed by the terminal failure: the output file is never created
(`openOut`), its directory is never made, and no line is ever written. -/
theorem claim_C9 (lines : List Str) (e : Err) (h : Act.exitFail e ∈ run lines) :
    (∃ ws : List Str, run lines = ws.map Act.warn ++ [Act.exitFail e]) ∧
    (∀ s, Act.writeLine s ∉ run lines) ∧ Act.openOut ∉ run lines ∧
    Act.mkdirOut ∉ run lines := by
  have hwarn : ∀ (ws : List Str) (e2 : Err), Act.exitFail e ∈ ws.map Act.warn ++ [Act.exitFail e2] → e = e2 := by
    intro ws e2 hx
    rcases List.mem_append.mp hx with h1 | h1
    · obtain ⟨s2, _, hs2⟩ := List.mem_map.mp h1
      exact Act.noConfusion hs2
    · simp only [List.mem_singleton, Act.exitFail.injEq] at h1
      exact h1
  have hnomem : ∀ (ws : List Str) (e2 : Err),
      (∀ s, Act.writeLine s ∉ ws.map Act.warn ++ [Act.exitFail e2]) ∧
      Act.openOut ∉ ws.map Act.warn ++ [Act.exitFail e2] ∧
      Act.mkdirOut ∉ ws.map Act.warn ++ [Act.exitFail e2] := by
    intro ws e2
    refine ⟨?_, ?_, ?_⟩
    · intro s hx
      rcases List.mem_append.mp hx with h1 | h1
      · obtain ⟨s2, _, hs2⟩ := List.mem_map.mp h1
        exact Act.noConfusion hs2
      · simp only [List.mem_singleton] at h1
        exact Act.noConfusion h1
    · intro hx
      rcases List.mem_append.mp hx with h1 | h1
      · obtain ⟨s2, _, hs2⟩ := List.mem_map.mp h1
        exact Act.noConfusion hs2
      · simp only [List.mem_singleton] at h1
        exact Act.noConfusion h1
    · intro hx
      rcases List.mem_append.mp hx with h1 | h1
      · obtain ⟨s2, _, hs2⟩ := List.mem_map.mp h1
        exact Act.noConfusion hs2
      · simp only [List.mem_singleton] at h1
        exact Act.noConfusion h1
  unfold run at h ⊢
  by_cases hh : headerOK (lines.headD [])
  · rw [if_pos hh] at h ⊢
    cases hp : processLines initSt lines.tail with
    | mk st eopt =>
      rw [hp] at h
      cases eopt with
      | some e2 =>
        dsimp only at h ⊢
        have he := hwarn st.warns e2 h
        subst he
        exact ⟨⟨st.warns, rfl⟩, hnomem st.warns e⟩
      | none =>
        dsimp only at h ⊢
        by_cases hm : st.map = []
        · rw [if_pos hm] at h ⊢
          have he := hwarn st.warns Err.noEntries h
          subst he
          exact ⟨⟨st.warns, rfl⟩, hnomem st.warns Err.noEntries⟩
        · rw [if_neg hm] at h
          exfalso
          rcases List.mem_append.mp h with h1 | h1
          · obtain ⟨s2, _, hs2⟩ := List.mem_map.mp h1
            exact Act.noConfusion hs2
          · rcases List.mem_cons.mp h1 with h2 | h2
            · exact Act.noConfusion h2
            · rcases List.mem_cons.mp h2 with h3 | h3
              · exact Act.noConfusion h3
              · obtain ⟨s2, _, hs2⟩ := List.mem_map.mp h3
                exact Act.noConfusion hs2
  · rw [if_neg hh] at h ⊢
    have he : e = Err.badHeader := by
      have := hwarn [] Err.badHeader (by simpa using h)
      exact this
    subst he
    refine ⟨⟨[], by simp⟩, ?_⟩
    have h2 := hnomem [] Err.badHeader
    simp only [List.map_nil, List.nil_append] at h2
    exact h2

/-- Claim C9 (witness): a run that warns and then fails writes nothing. -/
theorem claim_C9_witness :
    Act.exitFail (Err.badExtension ("homo sapiens,bad.txt,c,d,e,f".data))
      ∈ run ["species,file,tax1,tax2,mode,uniprot".data,
             "homo sapiens,bad.txt,c,d,e,f".data] ∧
    ((∃ ws : List Str, run ["species,file,tax1,tax2,mode,uniprot".data,
             "homo sapiens,bad.txt,c,d,e,f".data]
        = ws.map Act.warn
          ++ [Act.exitFail (Err.badExtension ("homo sapiens,bad.txt,c,d,e,f".data))]) ∧
     (∀ s, Act.writeLine s ∉ run ["species,file,tax1,tax2,mode,uniprot".data,
             "homo sapiens,bad.txt,c,d,e,f".data]) ∧
     Act.openOut ∉ run ["species,file,tax1,tax2,mode,uniprot".data,
             "homo sapiens,bad.txt,c,d,e,f".data] ∧
     Act.mkdirOut ∉ run ["species,file,tax1,tax2,mode,uniprot".data,
             "homo sapiens,bad.txt,c,d,e,f".data]) :=
  ⟨by decide, claim_C9 _ _ (by decide)⟩

/-- Claim C10: run identifiers are unambiguous — for distinct species keys or
distinct indices, the identifiers `{species}_T{n}` written to the output are
distinct, because the digit tail cannot absorb the `_T` separator. -/
theorem claim_C10 (s1 s2 : Str) (n1 n2 : Nat) (h : s1 ≠ s2 ∨ n1 ≠ n2) :
    runId s1 n1 ≠ runId s2 n2 := by
  intro he
  obtain ⟨hs, hn⟩ := runId_inj he
  rcases h with h | h
  · exact h hs
  · exact h hn

/-- Claim C10 (witness): two concrete distinct identifiers. -/
theorem claim_C10_witness :
    (("cat".data : Str) ≠ "cat_T1".data ∨ (2 : Nat) ≠ 1) ∧
    runId ("cat".data) 2 ≠ runId ("cat_T1".data) 1 :=
  ⟨Or.inl (by decide), claim_C10 ("cat".data) ("cat_T1".data) 2 1 (Or.inl (by decide))⟩

/-! ### Per-branch facts used by the row-level claims -/

lemma processLine_warns (st : St) (line : Str) (hnb : pyStrip line ≠ [])
    (hlen : 6 ≤ (parseRow line).length) (hpop : 6 ≤ countPop (parseRow line)) :
    (processLine st line).1.warns = (warnSt st line).warns := by
  unfold processLine
  rw [if_neg hnb, if_neg (show ¬(parseRow line).length < 6 by omega),
    if_neg (show ¬countPop (parseRow line) < 6 by omega)]
  by_cases h3 : spOf line = []
  · rw [if_pos h3]
  · rw [if_neg h3]
    by_cases h4 : fileOf line ≠ [] ∧ ' ' ∈ fileOf line
    · rw [if_pos h4]
    · rw [if_neg h4]
      by_cases h5 : fileOf line ≠ [] ∧ hasFastaExt (fileOf line) = false
      · rw [if_pos h5]
      · rw [if_neg h5]
        cases hlk : lookupSp (spOf line) (warnSt st line).map with
        | none => rfl
        | some rems =>
          dsimp only
          by_cases h6 : infoOf line ∈ rems
          · rw [if_pos h6]
          · rw [if_neg h6]

lemma processLine_not_emptySpecies (st : St) (line : Str) (hspne : spOf line ≠ []) :
    (processLine st line).2 ≠ some (Err.emptySpecies line) := by
  unfold processLine
  by_cases h0 : pyStrip line = []
  · rw [if_pos h0]; simp
  rw [if_neg h0]
  by_cases h1 : (parseRow line).length < 6
  · rw [if_pos h1]; simp
  rw [if_neg h1]
  by_cases h2 : countPop (parseRow line) < 6
  · rw [if_pos h2]; simp
  rw [if_neg h2, if_neg hspne]
  by_cases h4 : fileOf line ≠ [] ∧ ' ' ∈ fileOf line
  · rw [if_pos h4]; simp
  rw [if_neg h4]
  by_cases h5 : fileOf line ≠ [] ∧ hasFastaExt (fileOf line) = false
  · rw [if_pos h5]; simp
  rw [if_neg h5]
  cases hlk : lookupSp (spOf line) (warnSt st line).map with
  | none => dsimp only; simp
  | some rems =>
    dsimp only
    by_cases h6 : infoOf line ∈ rems
    · rw [if_pos h6]; simp
    · rw [if_neg h6]; simp

/-- Claim C5 (counterexample): the species `a  b` (two spaces) is recorded
under `a__b`, not `a_b` — each space is replaced by its own underscore — and
the species `a<tab>b` triggers neither a warning nor a replacement, although a
tab is whitespace. -/
theorem claim_C5_counterexample :
    lookupSp ("a_b".data) (processLine initSt ("a  b,f.fasta,c,d,e,g".data)).1.map
      = none ∧
    lookupSp ("a__b".data) (processLine initSt ("a  b,f.fasta,c,d,e,g".data)).1.map
      = some [["f.fasta".data, "c".data, "d".data, "e".data, "g".data]] ∧
    (processLine initSt ("a\tb,f.fasta,c,d,e,g".data)).1.warns = [] ∧
    lookupSp ("a\tb".data) (processLine initSt ("a\tb,f.fasta,c,d,e,g".data)).1.map
      = some [["f.fasta".data, "c".data, "d".data, "e".data, "g".data]] := by
  refine ⟨by decide, by decide, by decide, by decide⟩

/-- Claim C5 (amended): when the species field of a structurally valid data row
contains a space character, each space (and only spaces, not other whitespace)
is replaced one-for-one by an underscore, a non-fatal warning naming the
original value is emitted, the row is not rejected as an empty species, and on
acceptance the record is grouped under the replaced name. -/
theorem claim_C5 (st : St) (line : Str)
    (hnb : pyStrip line ≠ []) (hlen : 6 ≤ (parseRow line).length)
    (hpop : 6 ≤ countPop (parseRow line)) (hsp : ' ' ∈ species0Of line) :
    (processLine st line).1.warns = st.warns ++ [species0Of line] ∧
    spOf line = spaceToUnderscore (species0Of line) ∧
    (processLine st line).2 ≠ some (Err.emptySpecies line) ∧
    ((processLine st line).2 = none →
      lookupSp (spOf line) (processLine st line).1.map =
        some ((lookupSp (spOf line) st.map).getD [] ++ [infoOf line])) := by
  have hspof : spOf line = spaceToUnderscore (species0Of line) := by
    unfold spOf
    rw [if_pos hsp]
  have hw : (warnSt st line).warns = st.warns ++ [species0Of line] := by
    unfold warnSt
    rw [if_pos hsp]
  have hspne : spOf line ≠ [] := by
    rw [hspof]
    exact spaceToUnderscore_ne_nil _ (List.ne_nil_of_mem hsp)
  refine ⟨by rw [processLine_warns st line hnb hlen hpop, hw], hspof,
    processLine_not_emptySpecies st line hspne, ?_⟩
  intro hnone
  rcases processLine_shape st line with ⟨_, e, he⟩ | ⟨he, hb⟩ | ⟨_, _, _, _, hcase⟩
  · rw [he] at hnone
    exact absurd hnone (by simp)
  · exact absurd hb hnb
  rcases hcase with ⟨hlk, hm⟩ | ⟨rems, hlk, hnin, hm⟩
  · rw [hm, lookupSp_append_right _ hlk, hlk]
    simp [lookupSp]
  · rw [hm, lookupSp_updateSp_self (by rw [hlk]; simp), hlk]
    rfl

/-- Claim C5 (witness): the spec's own example `homo sapiens` is accepted with
a warning naming the original value and recorded under `homo_sapiens`. -/
theorem claim_C5_witness :
    (pyStrip ("homo sapiens,f.fa,a,b,c,d".data) ≠ [] ∧
     6 ≤ (parseRow ("homo sapiens,f.fa,a,b,c,d".data)).length ∧
     6 ≤ countPop (parseRow ("homo sapiens,f.fa,a,b,c,d".data)) ∧
     ' ' ∈ species0Of ("homo sapiens,f.fa,a,b,c,d".data)) ∧
    ((processLine initSt ("homo sapiens,f.fa,a,b,c,d".data)).1.warns
       = [] ++ [species0Of ("homo sapiens,f.fa,a,b,c,d".data)] ∧
     spOf ("homo sapiens,f.fa,a,b,c,d".data)
       = spaceToUnderscore (species0Of ("homo sapiens,f.fa,a,b,c,d".data)) ∧
     (processLine initSt ("homo sapiens,f.fa,a,b,c,d".data)).2
       ≠ some (Err.emptySpecies ("homo sapiens,f.fa,a,b,c,d".data)) ∧
     ((processLine initSt ("homo sapiens,f.fa,a,b,c,d".data)).2 = none →
       lookupSp (spOf ("homo sapiens,f.fa,a,b,c,d".data))
           (processLine initSt ("homo sapiens,f.fa,a,b,c,d".data)).1.map =
         some ((lookupSp (spOf ("homo sapiens,f.fa,a,b,c,d".data)) initSt.map).getD []
           ++ [infoOf ("homo sapiens,f.fa,a,b,c,d".data)]))) :=
  ⟨⟨by decide, by decide, by decide, by decide⟩,
    claim_C5 initSt ("homo sapiens,f.fa,a,b,c,d".data)
      (by decide) (by decide) (by decide) (by decide)⟩

/-- Claim C7 (counterexample): a file field containing a tab — whitespace, but
not a space — is accepted: only the space character is checked. -/
theorem claim_C7_counterexample :
    '\t' ∈ fileOf ("a,sam\tple.fasta,b,c,d,e".data) ∧
    (processLine initSt ("a,sam\tple.fasta,b,c,d,e".data)).2 = none := by
  refine ⟨by decide, by decide⟩

/-- Claim C7 (amended): for a structurally valid data row with a non-empty
file field, the row is rejected if the field contains a space character
(U+0020; other whitespace is not checked), and rejected unless it ends with
`.fasta` or `.fa` (case-sensitive); an empty file field, or a space-free one
with a valid extension, is never rejected by these two checks. -/
theorem claim_C7 (st : St) (line : Str)
    (hnb : pyStrip line ≠ []) (hlen : 6 ≤ (parseRow line).length)
    (hpop : 6 ≤ countPop (parseRow line)) (hspne : spOf line ≠ []) :
    (fileOf line ≠ [] → ' ' ∈ fileOf line →
      (processLine st line).2 = some (Err.fileSpaces line)) ∧
    (fileOf line ≠ [] → ' ' ∉ fileOf line → hasFastaExt (fileOf line) = false →
      (processLine st line).2 = some (Err.badExtension line)) ∧
    (fileOf line = [] →
      (processLine st line).2 ≠ some (Err.fileSpaces line) ∧
      (processLine st line).2 ≠ some (Err.badExtension line)) ∧
    (' ' ∉ fileOf line → hasFastaExt (fileOf line) = true →
      (processLine st line).2 ≠ some (Err.fileSpaces line) ∧
      (processLine st line).2 ≠ some (Err.badExtension line)) := by
  unfold processLine
  rw [if_neg hnb, if_neg (show ¬(parseRow line).length < 6 by omega),
    if_neg (show ¬countPop (parseRow line) < 6 by omega), if_neg hspne]
  by_cases h4 : fileOf line ≠ [] ∧ ' ' ∈ fileOf line
  · rw [if_pos h4]
    refine ⟨fun _ _ => rfl, ?_, ?_, ?_⟩
    · intro _ hns _
      exact absurd h4.2 hns
    · intro hf
      exact absurd hf h4.1
    · intro hns _
      exact absurd h4.2 hns
  rw [if_neg h4]
  by_cases h5 : fileOf line ≠ [] ∧ hasFastaExt (fileOf line) = false
  · rw [if_pos h5]
    refine ⟨?_, fun _ _ _ => rfl, ?_, ?_⟩
    · intro hne hsp
      exact absurd ⟨hne, hsp⟩ h4
    · intro hf
      exact absurd hf h5.1
    · intro _ hT
      rw [h5.2] at hT
      exact Bool.noConfusion hT
  rw [if_neg h5]
  have hgoals : ∀ r2 : Option Err, r2 = none ∨ r2 = some (Err.duplicateRow line) →
      ((fileOf line ≠ [] → ' ' ∈ fileOf line → r2 = some (Err.fileSpaces line)) ∧
       (fileOf line ≠ [] → ' ' ∉ fileOf line → hasFastaExt (fileOf line) = false →
         r2 = some (Err.badExtension line)) ∧
       (fileOf line = [] →
         r2 ≠ some (Err.fileSpaces line) ∧ r2 ≠ some (Err.badExtension line)) ∧
       (' ' ∉ fileOf line → hasFastaExt (fileOf line) = true →
         r2 ≠ some (Err.fileSpaces line) ∧ r2 ≠ some (Err.badExtension line))) := by
    intro r2 hr
    refine ⟨?_, ?_, ?_, ?_⟩
    · intro hne hsp
      exact absurd ⟨hne, hsp⟩ h4
    · intro hne _ hF
      exact absurd ⟨hne, hF⟩ h5
    · intro _
      rcases hr with hr | hr <;> rw [hr] <;> exact ⟨by simp, by simp⟩
    · intro _ _
      rcases hr with hr | hr <;> rw [hr] <;> exact ⟨by simp, by simp⟩
  cases hlk : lookupSp (spOf line) (warnSt st line).map with
  | none =>
    dsimp only
    exact hgoals none (Or.inl rfl)
  | some rems =>
    dsimp only
    by_cases h6 : infoOf line ∈ rems
    · rw [if_pos h6]
      exact hgoals (some (Err.duplicateRow line)) (Or.inr rfl)
    · rw [if_neg h6]
      exact hgoals none (Or.inl rfl)

/-- Claim C7 (witness): `sample 1.fasta` is rejected for its space,
`sample.txt` for its extension, and `sample.fasta` / `sample.fa` pass both
file checks, at concrete rows. -/
theorem claim_C7_witness :
    ((processLine initSt ("a,sam ple.fasta,b,c,d,e".data)).2
       = some (Err.fileSpaces ("a,sam ple.fasta,b,c,d,e".data))) ∧
    ((processLine initSt ("a,sample.txt,b,c,d,e".data)).2
       = some (Err.badExtension ("a,sample.txt,b,c,d,e".data))) ∧
    ((processLine initSt ("a,sample.fasta,b,c,d,e".data)).2
       ≠ some (Err.fileSpaces ("a,sample.fasta,b,c,d,e".data)) ∧
     (processLine initSt ("a,sample.fasta,b,c,d,e".data)).2
       ≠ some (Err.badExtension ("a,sample.fasta,b,c,d,e".data))) ∧
    ((processLine initSt ("a,sample.fa,b,c,d,e".data)).2
       ≠ some (Err.fileSpaces ("a,sample.fa,b,c,d,e".data)) ∧
     (processLine initSt ("a,sample.fa,b,c,d,e".data)).2
       ≠ some (Err.badExtension ("a,sample.fa,b,c,d,e".data))) :=
  ⟨(claim_C7 initSt ("a,sam ple.fasta,b,c,d,e".data)
      (by decide) (by decide) (by decide) (by decide)).1 (by decide) (by decide),
   (claim_C7 initSt ("a,sample.txt,b,c,d,e".data)
      (by decide) (by decide) (by decide) (by decide)).2.1
      (by decide) (by decide) (by decide),
   (claim_C7 initSt ("a,sample.fasta,b,c,d,e".data)
      (by decide) (by decide) (by decide) (by decide)).2.2.2
      (by decide) (by decide),
   (claim_C7 initSt ("a,sample.fa,b,c,d,e".data)
      (by decide) (by decide) (by decide) (by decide)).2.2.2
      (by decide) (by decide)⟩

/-- Claim C8: a data row whose remainder tuple is already stored for its
canonicalized species fails fatally with a duplicate-row error naming the
line; otherwise the remainder is appended to that species' sequence; and after
any run of the loop no species' sequence contains two equal remainder
tuples. -/
theorem claim_C8 :
    (∀ (st : St) (line : Str) (rems : List Rem),
      pyStrip line ≠ [] → 6 ≤ (parseRow line).length →
      6 ≤ countPop (parseRow line) → spOf line ≠ [] →
      ¬(fileOf line ≠ [] ∧ ' ' ∈ fileOf line) →
      ¬(fileOf line ≠ [] ∧ hasFastaExt (fileOf line) = false) →
      lookupSp (spOf line) st.map = some rems →
      ((infoOf line ∈ rems →
        processLine st line = (warnSt st line, some (Err.duplicateRow line))) ∧
       (infoOf line ∉ rems →
        (processLine st line).2 = none ∧
        lookupSp (spOf line) (processLine st line).1.map
          = some (rems ++ [infoOf line])))) ∧
    (∀ (lines : List Str) (st : St) (eopt : Option Err),
      processLines initSt lines = (st, eopt) → ∀ p ∈ st.map, p.2.Nodup) := by
  constructor
  · intro st line rems hnb hlen hpop hspne h4 h5 hlk
    unfold processLine
    rw [if_neg hnb, if_neg (show ¬(parseRow line).length < 6 by omega),
      if_neg (show ¬countPop (parseRow line) < 6 by omega), if_neg hspne,
      if_neg h4, if_neg h5]
    have hlk2 : lookupSp (spOf line) (warnSt st line).map = some rems := by
      rw [warnSt_map]
      exact hlk
    rw [hlk2]
    dsimp only
    constructor
    · intro h6
      rw [if_pos h6]
    · intro h6
      rw [if_neg h6]
      refine ⟨rfl, ?_⟩
      dsimp only
      rw [warnSt_map]
      exact lookupSp_updateSp_self (by rw [hlk]; simp)
  · intro lines st eopt hp p hpm
    have hg := processLines_initSt_goodMap lines hp
    exact (hg.2 p hpm).2.2.2.2.1

/-- Claim C8 (witness): the spec's duplicate example
`human,human.fasta,l1,l2,denovo,true` repeated is rejected as a duplicate row,
and the accumulated sequences of a run are duplicate-free. -/
theorem claim_C8_witness :
    (lookupSp (spOf ("human,human.fasta,l1,l2,denovo,true".data))
        (St.mk [(("human".data : Str),
          [["human.fasta".data, "l1".data, "l2".data, "denovo".data, "true".data]])]
          []).map
      = some [["human.fasta".data, "l1".data, "l2".data, "denovo".data, "true".data]] ∧
     infoOf ("human,human.fasta,l1,l2,denovo,true".data)
      ∈ [["human.fasta".data, "l1".data, "l2".data, "denovo".data, "true".data]]) ∧
    processLine
        (St.mk [(("human".data : Str),
          [["human.fasta".data, "l1".data, "l2".data, "denovo".data, "true".data]])]
          [])
        ("human,human.fasta,l1,l2,denovo,true".data)
      = (warnSt
          (St.mk [(("human".data : Str),
            [["human.fasta".data, "l1".data, "l2".data, "denovo".data, "true".data]])]
            [])
          ("human,human.fasta,l1,l2,denovo,true".data),
         some (Err.duplicateRow ("human,human.fasta,l1,l2,denovo,true".data))) ∧
    (∀ p ∈ (St.mk [(("human".data : Str),
        [["human.fasta".data, "l1".data, "l2".data, "denovo".data, "true".data]])]
        []).map, p.2.Nodup) :=
  ⟨⟨by decide, by decide⟩,
   (claim_C8.1
      (St.mk [(("human".data : Str),
        [["human.fasta".data, "l1".data, "l2".data, "denovo".data, "true".data]])]
        [])
      ("human,human.fasta,l1,l2,denovo,true".data)
      [["human.fasta".data, "l1".data, "l2".data, "denovo".data, "true".data]]
      (by decide) (by decide) (by decide) (by decide) (by decide) (by decide)
      (by decide)).1 (by decide),
   claim_C8.2 ["human,human.fasta,l1,l2,denovo,true".data]
      (St.mk [(("human".data : Str),
        [["human.fasta".data, "l1".data, "l2".data, "denovo".data, "true".data]])]
        [])
      none rfl⟩

/-! ### Claim C4 -/

lemma headD_take (l : List Str) : (l.take 6).headD [] = l.headD [] := by
  cases l <;> rfl

lemma drop1_take6 (l : List Str) : (l.take 6).drop 1 = (l.drop 1).take 5 := by
  cases l <;> rfl

/-- Claim C4 (counterexample): the rows `a,b.fasta,c,d,e,` and
`a,b.fasta,c,d,e,,x` agree on their first 6 trimmed fields, only 5 of which
are non-empty, yet the first row is rejected and the second accepted — the
populated count ranges over all fields, and a trailing field changes
acceptance. -/
theorem claim_C4_counterexample :
    (parseRow ("a,b.fasta,c,d,e,".data)).take 6
      = (parseRow ("a,b.fasta,c,d,e,,x".data)).take 6 ∧
    countPop ((parseRow ("a,b.fasta,c,d,e,,x".data)).take 6) < 6 ∧
    (processLine initSt ("a,b.fasta,c,d,e,,x".data)).2 = none ∧
    (processLine initSt ("a,b.fasta,c,d,e,".data)).2
      = some (Err.fewPopulated ("a,b.fasta,c,d,e,".data)) := by
  refine ⟨by decide, by decide, by decide, by decide⟩

/-- Claim C4 (amended): the non-empty-fields requirement counts over all
fields of the row, so a row is rejected for too few populated columns exactly
when fewer than 6 of all its trimmed fields are non-empty, and trailing fields
can affect acceptance only through that count; for two rows agreeing on their
first 6 trimmed fields that both pass the populated-columns check, acceptance
and the resulting state are identical. -/
theorem claim_C4 (st : St) (l1 l2 : Str)
    (hnb1 : pyStrip l1 ≠ []) (hnb2 : pyStrip l2 ≠ [])
    (hlen1 : 6 ≤ (parseRow l1).length) (hlen2 : 6 ≤ (parseRow l2).length)
    (hagree : (parseRow l1).take 6 = (parseRow l2).take 6) :
    ((processLine st l1).2 = some (Err.fewPopulated l1)
       ↔ countPop (parseRow l1) < 6) ∧
    (6 ≤ countPop (parseRow l1) → 6 ≤ countPop (parseRow l2) →
      (processLine st l1).1 = (processLine st l2).1 ∧
      ((processLine st l1).2 = none ↔ (processLine st l2).2 = none)) := by
  have hsp0 : species0Of l1 = species0Of l2 := by
    have h1 : ((parseRow l1).take 6).headD [] = ((parseRow l2).take 6).headD [] := by
      rw [hagree]
    rwa [headD_take, headD_take] at h1
  have hinfo : infoOf l1 = infoOf l2 := by
    have h1 : ((parseRow l1).take 6).drop 1 = ((parseRow l2).take 6).drop 1 := by
      rw [hagree]
    rwa [drop1_take6, drop1_take6] at h1
  have hfile : fileOf l1 = fileOf l2 := by
    rw [← infoOf_headD, ← infoOf_headD, hinfo]
  have hspo : spOf l1 = spOf l2 := by
    unfold spOf
    rw [hsp0]
  have hw : warnSt st l1 = warnSt st l2 := by
    unfold warnSt
    rw [hsp0]
  constructor
  · unfold processLine
    rw [if_neg hnb1, if_neg (show ¬(parseRow l1).length < 6 by omega)]
    by_cases h2 : countPop (parseRow l1) < 6
    · rw [if_pos h2]
      simp [h2]
    · rw [if_neg h2]
      constructor
      · intro hcontra
        exfalso
        by_cases h3 : spOf l1 = []
        · rw [if_pos h3] at hcontra
          simp at hcontra
        rw [if_neg h3] at hcontra
        by_cases h4 : fileOf l1 ≠ [] ∧ ' ' ∈ fileOf l1
        · rw [if_pos h4] at hcontra
          simp at hcontra
        rw [if_neg h4] at hcontra
        by_cases h5 : fileOf l1 ≠ [] ∧ hasFastaExt (fileOf l1) = false
        · rw [if_pos h5] at hcontra
          simp at hcontra
        rw [if_neg h5] at hcontra
        cases hlk : lookupSp (spOf l1) (warnSt st l1).map with
        | none =>
          rw [hlk] at hcontra
          dsimp only at hcontra
          simp at hcontra
        | some rems =>
          rw [hlk] at hcontra
          dsimp only at hcontra
          by_cases h6 : infoOf l1 ∈ rems
          · rw [if_pos h6] at hcontra
            simp at hcontra
          · rw [if_neg h6] at hcontra
            simp at hcontra
      · intro h6
        exact absurd h6 h2
  · intro hp1 hp2
    unfold processLine
    rw [if_neg hnb1, if_neg hnb2,
      if_neg (show ¬(parseRow l1).length < 6 by omega),
      if_neg (show ¬(parseRow l2).length < 6 by omega),
      if_neg (show ¬countPop (parseRow l1) < 6 by omega),
      if_neg (show ¬countPop (parseRow l2) < 6 by omega),
      ← hspo, ← hw, ← hfile, ← hinfo]
    by_cases h3 : spOf l1 = []
    · rw [if_pos h3, if_pos h3]
      exact ⟨rfl, by simp⟩
    rw [if_neg h3, if_neg h3]
    by_cases h4 : fileOf l1 ≠ [] ∧ ' ' ∈ fileOf l1
    · rw [if_pos h4, if_pos h4]
      exact ⟨rfl, by simp⟩
    rw [if_neg h4, if_neg h4]
    by_cases h5 : fileOf l1 ≠ [] ∧ hasFastaExt (fileOf l1) = false
    · rw [if_pos h5, if_pos h5]
      exact ⟨rfl, by simp⟩
    rw [if_neg h5, if_neg h5]
    cases hlk : lookupSp (spOf l1) (warnSt st l1).map with
    | none =>
      dsimp only
      exact ⟨rfl, by simp⟩
    | some rems =>
      dsimp only
      by_cases h6 : infoOf l1 ∈ rems
      · rw [if_pos h6, if_pos h6]
        exact ⟨rfl, by simp⟩
      · rw [if_neg h6, if_neg h6]
        exact ⟨rfl, by simp⟩

/-- Claim C4 (witness): two concrete rows differing only in a trailing extra
field, both with all of the first 6 fields populated. -/
theorem claim_C4_witness :
    ((parseRow ("cat,c.fasta,t1,t2,m,u".data)).take 6
      = (parseRow ("cat,c.fasta,t1,t2,m,u,EXTRA".data)).take 6) ∧
    (((processLine initSt ("cat,c.fasta,t1,t2,m,u".data)).2
        = some (Err.fewPopulated ("cat,c.fasta,t1,t2,m,u".data))
       ↔ countPop (parseRow ("cat,c.fasta,t1,t2,m,u".data)) < 6) ∧
     (6 ≤ countPop (parseRow ("cat,c.fasta,t1,t2,m,u".data)) →
      6 ≤ countPop (parseRow ("cat,c.fasta,t1,t2,m,u,EXTRA".data)) →
      (processLine initSt ("cat,c.fasta,t1,t2,m,u".data)).1
        = (processLine initSt ("cat,c.fasta,t1,t2,m,u,EXTRA".data)).1 ∧
      ((processLine initSt ("cat,c.fasta,t1,t2,m,u".data)).2 = none
        ↔ (processLine initSt ("cat,c.fasta,t1,t2,m,u,EXTRA".data)).2 = none))) :=
  ⟨by decide,
   claim_C4 initSt ("cat,c.fasta,t1,t2,m,u".data)
     ("cat,c.fasta,t1,t2,m,u,EXTRA".data)
     (by decide) (by decide) (by decide) (by decide) (by decide)⟩

/-! ### Claim C1 -/

lemma check_ok_parts {lines : List Str} {out : List Str} (h : check lines = .ok out) :
    headerOK (lines.headD []) ∧ ∃ st, processLines initSt lines.tail = (st, none) ∧
      st.map ≠ [] ∧ out = outLines st.map := by
  unfold check at h
  by_cases hh : headerOK (lines.headD [])
  · rw [if_pos hh] at h
    refine ⟨hh, ?_⟩
    cases hp : processLines initSt lines.tail with
    | mk st eopt =>
      rw [hp] at h
      cases eopt with
      | some e => exact absurd h (by simp)
      | none =>
        dsimp only at h
        by_cases hm : st.map = []
        · rw [if_pos hm] at h
          exact absurd h (by simp)
        · rw [if_neg hm] at h
          refine ⟨st, rfl, hm, ?_⟩
          injection h with h
          exact h.symm
  · rw [if_neg hh] at h
    exact absurd h (by simp)

lemma linesFrom_length (s : Str) : ∀ (n : Nat) (rems : List Rem),
    (linesFrom s n rems).length = rems.length := by
  intro n rems
  induction rems generalizing n with
  | nil => rfl
  | cons v vs ih => simp [linesFrom, ih]

lemma linesFrom_get (s : Str) : ∀ (rems : List Rem) (n i : Nat) (v : Rem),
    rems[i]? = some v →
    (linesFrom s n rems)[i]? = some (joinComma (runId s (n + i) :: v)) := by
  intro rems
  induction rems with
  | nil =>
    intro n i v hv
    simp at hv
  | cons w ws ih =>
    intro n i v hv
    cases i with
    | zero =>
      simp only [List.getElem?_cons_zero, Option.some.injEq] at hv
      subst hv
      simp [linesFrom]
    | succ i =>
      simp only [List.getElem?_cons_succ] at hv
      have h1 := ih (n + 1) i v hv
      have h2 : n + 1 + i = n + (i + 1) := by omega
      rw [h2] at h1
      simpa [linesFrom] using h1

/-- Claim C1: on every accepted input the output is the header line followed by
one line per validated remainder: species groups are emitted in strictly
increasing lexicographic key order, each group keeps its insertion order, the
row at 0-based offset `i` of a group carries run id `{species}_T{i+1}`, and
each line is the comma-join of the run id and the remainder's fields. -/
theorem claim_C1 (lines out : List Str) (h : check lines = .ok out) :
    ∃ st, processLines initSt lines.tail = (st, none) ∧
      out = headerLine :: (sortPairs st.map).flatMap (fun p => linesFrom p.1 1 p.2) ∧
      (sortPairs st.map).Perm st.map ∧
      List.Pairwise keyLt (sortPairs st.map) ∧
      (∀ p ∈ sortPairs st.map, (linesFrom p.1 1 p.2).length = p.2.length) ∧
      (∀ p ∈ sortPairs st.map, ∀ (i : Nat) (v : Rem), p.2[i]? = some v →
        (linesFrom p.1 1 p.2)[i]? = some (joinComma (runId p.1 (i + 1) :: v))) := by
  obtain ⟨hh, st, hp, hm, hout⟩ := check_ok_parts h
  refine ⟨st, hp, hout, sortPairs_perm st.map, ?_,
    fun p _ => linesFrom_length p.1 1 p.2, ?_⟩
  · have hnd : (st.map.map Prod.fst).Nodup := (processLines_initSt_goodMap _ hp).1
    have hndS : ((sortPairs st.map).map Prod.fst).Nodup :=
      (((sortPairs_perm st.map).map Prod.fst).nodup_iff).mpr hnd
    have hpw_ne : (sortPairs st.map).Pairwise (fun p q => p.1 ≠ q.1) :=
      (List.pairwise_map).mp hndS
    have hpw_le : (sortPairs st.map).Pairwise keyLe := sortPairs_sorted st.map
    exact (hpw_le.and hpw_ne).imp (fun hx => keyLt_of_keyLe_ne hx.1 hx.2)
  · intro p _ i v hv
    have h1 := linesFrom_get p.1 p.2 1 i v hv
    rw [show 1 + i = i + 1 from by omega] at h1
    exact h1

/-- Claim C1 (witness): a concrete input with an out-of-order species and two
rows for `cat`; the output groups `cat` before `dog` and numbers the `cat`
rows `_T1`, `_T2` in input order. -/
theorem claim_C1_witness :
    check ["species,file,tax1,tax2,mode,uniprot".data, "dog,d.fa,1,2,3,4".data,
           "cat,c.fa,1,2,3,4".data, "cat,c2.fa,1,2,3,4".data]
      = .ok ["species,file,tax1,tax2,mode,uniprot".data,
             "cat_T1,c.fa,1,2,3,4".data, "cat_T2,c2.fa,1,2,3,4".data,
             "dog_T1,d.fa,1,2,3,4".data] ∧
    (∃ st, processLines initSt
        ["species,file,tax1,tax2,mode,uniprot".data, "dog,d.fa,1,2,3,4".data,
         "cat,c.fa,1,2,3,4".data, "cat,c2.fa,1,2,3,4".data].tail = (st, none) ∧
      ["species,file,tax1,tax2,mode,uniprot".data,
       "cat_T1,c.fa,1,2,3,4".data, "cat_T2,c2.fa,1,2,3,4".data,
       "dog_T1,d.fa,1,2,3,4".data]
        = headerLine :: (sortPairs st.map).flatMap (fun p => linesFrom p.1 1 p.2) ∧
      (sortPairs st.map).Perm st.map ∧
      List.Pairwise keyLt (sortPairs st.map) ∧
      (∀ p ∈ sortPairs st.map, (linesFrom p.1 1 p.2).length = p.2.length) ∧
      (∀ p ∈ sortPairs st.map, ∀ (i : Nat) (v : Rem), p.2[i]? = some v →
        (linesFrom p.1 1 p.2)[i]? = some (joinComma (runId p.1 (i + 1) :: v)))) :=
  ⟨rfl, claim_C1
    ["species,file,tax1,tax2,mode,uniprot".data, "dog,d.fa,1,2,3,4".data,
     "cat,c.fa,1,2,3,4".data, "cat,c2.fa,1,2,3,4".data]
    ["species,file,tax1,tax2,mode,uniprot".data,
     "cat_T1,c.fa,1,2,3,4".data, "cat_T2,c2.fa,1,2,3,4".data,
     "dog_T1,d.fa,1,2,3,4".data] rfl⟩

/-! ### Facts about run identifiers as strings -/

lemma decDigits_props : ∀ c ∈ decDigits, isWS c = false ∧ c ≠ ',' ∧
    isQuote c = false ∧ c ≠ ' ' ∧ c ≠ '_' ∧ c ≠ 'T' := by decide

lemma runId_ne_nil (s : Str) (n : Nat) : runId s n ≠ [] := by
  unfold runId
  cases s <;> simp

lemma runId_no_space (s : Str) (n : Nat) (hs : ' ' ∉ s) : ' ' ∉ runId s n := by
  intro h
  unfold runId at h
  rcases List.mem_append.mp h with h | h
  · exact hs h
  · rcases List.mem_cons.mp h with h | h
    · exact absurd h (by decide)
    · rcases List.mem_cons.mp h with h | h
      · exact absurd h (by decide)
      · exact absurd (decimal_mem_digits n ' ' h) (by decide)

lemma runId_no_comma (s : Str) (n : Nat) (hs : ',' ∉ s) : ',' ∉ runId s n := by
  intro h
  unfold runId at h
  rcases List.mem_append.mp h with h | h
  · exact hs h
  · rcases List.mem_cons.mp h with h | h
    · exact absurd h (by decide)
    · rcases List.mem_cons.mp h with h | h
      · exact absurd h (by decide)
      · exact absurd (decimal_mem_digits n ',' h) (by decide)

lemma runId_getLast?_digit (s : Str) (n : Nat) :
    ∃ c ∈ decDigits, (runId s n).getLast? = some c := by
  obtain ⟨c, hc⟩ := getLast?_some_of_ne_nil (decimal n) (decimal_ne_nil n)
  refine ⟨c, decimal_mem_digits n c (List.mem_of_getLast?_eq_some hc), ?_⟩
  unfold runId
  rw [List.getLast?_append]
  rw [List.getLast?_cons_cons]
  cases hd : decimal n with
  | nil => exact absurd hd (decimal_ne_nil n)
  | cons a t =>
    rw [hd] at hc
    rw [List.getLast?_cons_cons, hc]
    rfl

lemma runId_head? (s : Str) (n : Nat) (hne : s ≠ []) :
    (runId s n).head? = s.head? := by
  unfold runId
  rw [List.head?_append]
  cases s with
  | nil => exact absurd rfl hne
  | cons a t => rfl

lemma parseField_runId (s : Str) (n : Nat) (hne : s ≠ [])
    (hfix : parseField s = s) : parseField (runId s n) = runId s n := by
  obtain ⟨hws, hq⟩ := parseField_fix_parts s hfix
  obtain ⟨c, hcd, hcl⟩ := runId_getLast?_digit s n
  have hhead := runId_head? s n hne
  unfold parseField
  have h1 : pyStrip (runId s n) = runId s n := by
    apply stripEnds_fix
    · intro d hd
      rw [hhead] at hd
      exact stripEnds_fix_head hws d hd
    · intro d hd
      rw [hcl] at hd
      injection hd with hd
      subst hd
      exact (decDigits_props c hcd).1
  rw [h1]
  apply stripEnds_fix
  · intro d hd
    rw [hhead] at hd
    exact stripEnds_fix_head hq d hd
  · intro d hd
    rw [hcl] at hd
    injection hd with hd
    subst hd
    exact (decDigits_props c hcd).2.2.1

lemma goodPair_of_entry {m : SpeciesMap} (hg : GoodMap m) (hc : CleanMap m)
    {s : Str} {rems : List Rem} (hmem : (s, rems) ∈ m) (n : Nat) {v : Rem}
    (hv : v ∈ rems) : GoodPair (runId s n, v) := by
  obtain ⟨hs1, hs2, hs3, _, _, hrem⟩ := hg.2 _ hmem
  obtain ⟨hc1, hc2⟩ := hc _ hmem
  obtain ⟨hl5, hcf, hfo⟩ := hrem v hv
  refine ⟨runId_ne_nil s n, runId_no_space s n hs2, runId_no_comma s n hs3,
    parseField_runId s n hs1 hc1, hl5, ?_, hfo⟩
  intro f hf
  exact ⟨(hc2 v hv f hf).1, hcf f hf, (hc2 v hv f hf).2⟩

/-! ### Replaying an output row -/

lemma processLine_fresh (st : St) (q : Str × Rem) (hq : GoodPair q)
    (hfresh : lookupSp q.1 st.map = none) :
    processLine st (joinComma (q.1 :: q.2))
      = (⟨st.map ++ [(q.1, [q.2])], st.warns⟩, none) := by
  obtain ⟨hne, hnsp, hnc, hfix, hlen5, hfields, hfo⟩ := hq
  have hparts : ∀ x ∈ q.1 :: q.2, x ≠ [] ∧ ',' ∉ x ∧ parseField x = x := by
    intro x hx
    rcases List.mem_cons.mp hx with rfl | hx
    · exact ⟨hne, hnc, hfix⟩
    · exact hfields x hx
  have hrow : parseRow (joinComma (q.1 :: q.2)) = q.1 :: q.2 :=
    parseRow_joinComma _ (by simp) hparts
  have hstrip : pyStrip (joinComma (q.1 :: q.2)) = joinComma (q.1 :: q.2) :=
    pyStrip_joinComma _ (by simp) (fun x hx => ⟨(hparts x hx).1, (hparts x hx).2.2⟩)
  have hnb : pyStrip (joinComma (q.1 :: q.2)) ≠ [] := by
    rw [hstrip]
    exact joinComma_ne_nil _ _ hne
  have hsp0 : species0Of (joinComma (q.1 :: q.2)) = q.1 := by
    unfold species0Of
    rw [hrow]
    rfl
  have hnospace0 : ' ' ∉ species0Of (joinComma (q.1 :: q.2)) := by
    rw [hsp0]
    exact hnsp
  have hspof : spOf (joinComma (q.1 :: q.2)) = q.1 := by
    unfold spOf
    rw [if_neg hnospace0, hsp0]
  have hwst : warnSt st (joinComma (q.1 :: q.2)) = st := by
    unfold warnSt
    rw [if_neg hnospace0]
  have hlenrow : (parseRow (joinComma (q.1 :: q.2))).length = 6 := by
    rw [hrow]
    simp [hlen5]
  have hfileof : fileOf (joinComma (q.1 :: q.2)) = q.2.headD [] := by
    unfold fileOf
    rw [hrow]
    rfl
  have hinfoof : infoOf (joinComma (q.1 :: q.2)) = q.2 := by
    unfold infoOf
    rw [hrow]
    show q.2.take 5 = q.2
    rw [← hlen5]
    exact List.take_length q.2
  have hpop : countPop (parseRow (joinComma (q.1 :: q.2))) = 6 := by
    rw [hrow, countPop_all _ (fun x hx => (hparts x hx).1)]
    simp [hlen5]
  unfold FileOK at hfo
  have hfc1 : ¬(fileOf (joinComma (q.1 :: q.2)) ≠ []
      ∧ ' ' ∈ fileOf (joinComma (q.1 :: q.2))) := by
    rw [hfileof]
    rcases hfo with hfo | hfo
    · intro hx
      exact hx.1 hfo
    · intro hx
      exact hfo.1 hx.2
  have hfc2 : ¬(fileOf (joinComma (q.1 :: q.2)) ≠ []
      ∧ hasFastaExt (fileOf (joinComma (q.1 :: q.2))) = false) := by
    rw [hfileof]
    rcases hfo with hfo | hfo
    · intro hx
      exact hx.1 hfo
    · intro hx
      rw [hfo.2] at hx
      exact Bool.noConfusion hx.2
  unfold processLine
  rw [if_neg hnb,
    if_neg (show ¬(parseRow (joinComma (q.1 :: q.2))).length < 6 from by
      rw [hlenrow]; omega),
    if_neg (show ¬countPop (parseRow (joinComma (q.1 :: q.2))) < 6 from by
      rw [hpop]; omega),
    if_neg (show ¬spOf (joinComma (q.1 :: q.2)) = [] from by
      rw [hspof]; exact hne),
    if_neg hfc1, if_neg hfc2, hwst, hspof, hinfoof, hfresh]

lemma processLines_fresh : ∀ (ps : List (Str × Rem)) (st : St),
    ((ps.map Prod.fst).Nodup) →
    (∀ k ∈ ps.map Prod.fst, lookupSp k st.map = none) →
    (∀ q ∈ ps, GoodPair q) →
    processLines st (ps.map (fun q => joinComma (q.1 :: q.2)))
      = (⟨st.map ++ ps.map (fun q => (q.1, [q.2])), st.warns⟩, none) := by
  intro ps
  induction ps with
  | nil =>
    intro st _ _ _
    show (st, none) = _
    simp
  | cons q qs ih =>
    intro st hnd hdisj hgood
    have hndt : ((qs.map Prod.fst).Nodup) := by
      simp only [List.map_cons, List.nodup_cons] at hnd
      exact hnd.2
    have hq1nt : q.1 ∉ qs.map Prod.fst := by
      simp only [List.map_cons, List.nodup_cons] at hnd
      exact hnd.1
    simp only [List.map_cons]
    show processLines st (joinComma (q.1 :: q.2) :: qs.map _) = _
    unfold processLines
    rw [processLine_fresh st q (hgood q (List.mem_cons_self q qs))
      (hdisj q.1 (by simp))]
    dsimp only
    rw [ih ⟨st.map ++ [(q.1, [q.2])], st.warns⟩ hndt ?_ ?_]
    · simp
    · intro k hk
      have hne : q.1 ≠ k := by
        intro he
        exact hq1nt (he ▸ hk)
      rw [lookupSp_append_right _ (hdisj k (List.mem_cons_of_mem _ hk))]
      simp [lookupSp, hne]
    · intro q2 hq2
      exact hgood q2 (List.mem_cons_of_mem _ hq2)

lemma pairsFrom_mem (s : Str) : ∀ (n : Nat) (rems : List Rem) (q : Str × Rem),
    q ∈ pairsFrom s n rems →
    (∃ i, i < rems.length ∧ q.1 = runId s (n + i)) ∧ q.2 ∈ rems := by
  intro n rems
  induction rems generalizing n with
  | nil =>
    intro q hq
    simp [pairsFrom] at hq
  | cons v vs ih =>
    intro q hq
    simp only [pairsFrom, List.mem_cons] at hq
    rcases hq with rfl | hq
    · exact ⟨⟨0, by simp, by simp⟩, by simp⟩
    · obtain ⟨⟨i, hi, hq1⟩, hq2⟩ := ih (n + 1) q hq
      refine ⟨⟨i + 1, by simp only [List.length_cons]; omega, ?_⟩,
        List.mem_cons_of_mem _ hq2⟩
      rw [hq1]
      congr 1
      omega

lemma pairsFrom_keys_nodup (s : Str) : ∀ (n : Nat) (rems : List Rem),
    ((pairsFrom s n rems).map Prod.fst).Nodup := by
  intro n rems
  induction rems generalizing n with
  | nil => simp [pairsFrom]
  | cons v vs ih =>
    simp only [pairsFrom, List.map_cons, List.nodup_cons]
    refine ⟨?_, ih (n + 1)⟩
    intro hmem
    obtain ⟨q, hq, hq1⟩ := List.mem_map.mp hmem
    obtain ⟨⟨i, hi, hqi⟩, _⟩ := pairsFrom_mem s (n + 1) vs q hq
    rw [hqi] at hq1
    have := (runId_inj hq1).2
    omega

lemma linesFrom_eq_map (s : Str) : ∀ (n : Nat) (rems : List Rem),
    linesFrom s n rems
      = (pairsFrom s n rems).map (fun q => joinComma (q.1 :: q.2)) := by
  intro n rems
  induction rems generalizing n with
  | nil => rfl
  | cons v vs ih => simp [linesFrom, pairsFrom, ih]

/-- Claim C2 (counterexample): the accepted input `a,b.fasta,c,d,e,,x` (empty
6th field, populated 7th) produces an output whose data line has an empty
last field, and the second run rejects that line — the round trip is not
universally idempotent. -/
theorem claim_C2_counterexample :
    check ["species,file,tax1,tax2,mode,uniprot".data, "a,b.fasta,c,d,e,,x".data]
      = .ok ["species,file,tax1,tax2,mode,uniprot".data,
             "a_T1,b.fasta,c,d,e,".data] ∧
    check ["species,file,tax1,tax2,mode,uniprot".data, "a_T1,b.fasta,c,d,e,".data]
      = .error (Err.fewPopulated ("a_T1,b.fasta,c,d,e,".data)) :=
  ⟨rfl, rfl⟩

/-- Claim C2 (amended): the round trip is idempotent for inputs whose
validated species keys and remainder fields are fixed points of the per-field
trimming and whose remainder fields are all non-empty: re-running the
validator on the produced output succeeds, and the second run stores exactly
one remainder per species, so every second-run identifier carries the suffix
`_T1`. -/
theorem claim_C2 (lines out : List Str) (st : St)
    (h1 : check lines = .ok out)
    (h2 : processLines initSt lines.tail = (st, none))
    (h3 : CleanMap st.map) :
    ∃ st2 : St, processLines initSt out.tail = (st2, none) ∧
      check out = .ok (outLines st2.map) ∧ st2.map ≠ [] ∧
      (∀ p ∈ st2.map, ∃ v : Rem, p.2 = [v]) ∧
      (∀ p ∈ st2.map, linesFrom p.1 1 p.2
        = [joinComma (runId p.1 1 :: p.2.headD [])]) := by
  obtain ⟨hh, st', hp', hm', hout⟩ := check_ok_parts h1
  rw [h2] at hp'
  injection hp' with hst hnone
  subst hst
  have hg : GoodMap st.map := processLines_initSt_goodMap _ h2
  have hmemP : ∀ p ∈ sortPairs st.map, p ∈ st.map :=
    fun p hp => ((sortPairs_perm st.map).mem_iff).mp hp
  have hgoodBP : ∀ q ∈ (sortPairs st.map).flatMap (fun p => pairsFrom p.1 1 p.2),
      GoodPair q := by
    intro q hq
    obtain ⟨p, hpP, hqp⟩ := List.mem_flatMap.mp hq
    obtain ⟨⟨i, hi, hq1⟩, hq2⟩ := pairsFrom_mem p.1 1 p.2 q hqp
    have hpm : (p.1, p.2) ∈ st.map := by
      simpa using hmemP p hpP
    have hgp := goodPair_of_entry hg h3 hpm (1 + i) hq2
    obtain ⟨a, b⟩ := q
    simp only at hq1
    rw [hq1]
    exact hgp
  have hkeysBP : (((sortPairs st.map).flatMap
      (fun p => pairsFrom p.1 1 p.2)).map Prod.fst).Nodup := by
    rw [List.map_flatMap, List.nodup_flatMap]
    constructor
    · intro p _
      exact pairsFrom_keys_nodup p.1 1 p.2
    · have hndk : ((sortPairs st.map).map Prod.fst).Nodup :=
        ((sortPairs_perm st.map).map Prod.fst).nodup_iff.mpr hg.1
      have hpw : (sortPairs st.map).Pairwise (fun p q2 => p.1 ≠ q2.1) :=
        (List.pairwise_map).mp hndk
      refine hpw.imp ?_
      intro p p2 hne k hk1 hk2
      obtain ⟨q, hq, hqk⟩ := List.mem_map.mp hk1
      obtain ⟨q2, hq2, hq2k⟩ := List.mem_map.mp hk2
      obtain ⟨⟨i, _, hqi⟩, _⟩ := pairsFrom_mem p.1 1 p.2 q hq
      obtain ⟨⟨j, _, hqj⟩, _⟩ := pairsFrom_mem p2.1 1 p2.2 q2 hq2
      have heq : runId p.1 (1 + i) = runId p2.1 (1 + j) := by
        rw [← hqi, ← hqj, hqk, hq2k]
      exact hne (runId_inj heq).1
  have htail : out.tail = ((sortPairs st.map).flatMap
      (fun p => pairsFrom p.1 1 p.2)).map (fun q => joinComma (q.1 :: q.2)) := by
    rw [hout]
    show ((sortPairs st.map).flatMap fun p => linesFrom p.1 1 p.2) = _
    simp only [linesFrom_eq_map]
    exact (List.map_flatMap _ _ _).symm
  have hrun := processLines_fresh
    ((sortPairs st.map).flatMap (fun p => pairsFrom p.1 1 p.2)) initSt
    hkeysBP (fun k _ => rfl) hgoodBP
  have hBPne : (sortPairs st.map).flatMap (fun p => pairsFrom p.1 1 p.2) ≠ [] := by
    cases hPc : sortPairs st.map with
    | nil =>
      exfalso
      apply hm'
      have hlen := (sortPairs_perm st.map).length_eq
      rw [hPc] at hlen
      cases hmc : st.map with
      | nil => exact absurd hmc hm'
      | cons a t =>
        rw [hmc] at hlen
        simp at hlen
    | cons p0 rest =>
      have hp0 : p0 ∈ st.map := hmemP p0 (by rw [hPc]; exact List.mem_cons_self _ _)
      have hne0 : p0.2 ≠ [] := (hg.2 p0 hp0).2.2.2.1
      simp only [List.flatMap_cons]
      cases hr : p0.2 with
      | nil => exact absurd hr hne0
      | cons v vs => simp [pairsFrom]
  have hmapne : (((sortPairs st.map).flatMap (fun p => pairsFrom p.1 1 p.2)).map
      (fun q => (q.1, [q.2])) : SpeciesMap) ≠ [] := by
    intro hx
    exact hBPne (List.map_eq_nil_iff.mp hx)
  refine ⟨⟨((sortPairs st.map).flatMap (fun p => pairsFrom p.1 1 p.2)).map
      (fun q => (q.1, [q.2])), []⟩, ?_, ?_, hmapne, ?_, ?_⟩
  · rw [htail]
    exact hrun
  · unfold check
    have hhead : out.headD [] = headerLine := by
      rw [hout]
      rfl
    rw [hhead, if_pos (show headerOK headerLine by decide), htail, hrun]
    dsimp only
    simp only [initSt, List.nil_append]
    rw [if_neg hmapne]
  · intro p hp
    obtain ⟨q, _, hq⟩ := List.mem_map.mp hp
    exact ⟨q.2, by rw [← hq]⟩
  · intro p hp
    obtain ⟨q, _, hq⟩ := List.mem_map.mp hp
    rw [← hq]
    rfl

/-- Claim C2 (witness): the single-row input
`human,human.fasta,l1,l2,denovo,true` is clean, and re-running the validator
on its output succeeds with one `_T1` row. -/
theorem claim_C2_witness :
    (check ["species,file,tax1,tax2,mode,uniprot".data,
            "human,human.fasta,l1,l2,denovo,true".data]
       = .ok ["species,file,tax1,tax2,mode,uniprot".data,
              "human_T1,human.fasta,l1,l2,denovo,true".data] ∧
     processLines initSt ["species,file,tax1,tax2,mode,uniprot".data,
            "human,human.fasta,l1,l2,denovo,true".data].tail
       = (St.mk [(("human".data : Str),
           [["human.fasta".data, "l1".data, "l2".data, "denovo".data, "true".data]])]
           [], none) ∧
     CleanMap (St.mk [(("human".data : Str),
           [["human.fasta".data, "l1".data, "l2".data, "denovo".data, "true".data]])]
           []).map) ∧
    (∃ st2 : St, processLines initSt
        ["species,file,tax1,tax2,mode,uniprot".data,
         "human_T1,human.fasta,l1,l2,denovo,true".data].tail = (st2, none) ∧
      check ["species,file,tax1,tax2,mode,uniprot".data,
             "human_T1,human.fasta,l1,l2,denovo,true".data]
        = .ok (outLines st2.map) ∧ st2.map ≠ [] ∧
      (∀ p ∈ st2.map, ∃ v : Rem, p.2 = [v]) ∧
      (∀ p ∈ st2.map, linesFrom p.1 1 p.2
        = [joinComma (runId p.1 1 :: p.2.headD [])])) :=
  ⟨⟨rfl, rfl, by decide⟩,
   claim_C2 ["species,file,tax1,tax2,mode,uniprot".data,
             "human,human.fasta,l1,l2,denovo,true".data]
     ["species,file,tax1,tax2,mode,uniprot".data,
      "human_T1,human.fasta,l1,l2,denovo,true".data]
     (St.mk [(("human".data : Str),
       [["human.fasta".data, "l1".data, "l2".data, "denovo".data, "true".data]])]
       [])
     rfl rfl (by decide)⟩

end Samplesheet
